import Mathlib

/-!
Verification of the EasyRAG vector-collection store (`src/core/faiss_connect.py`,
class `FaissManager`) against its natural-language specification.

The embedding models one collection of the store.  Machine floats are modelled
by exact rationals; FAISS `IndexFlatL2` reports METRIC_L2 values, i.e. squared
Euclidean distances, and the model does the same.  Wall-clock timestamps are
replaced by a fixed placeholder string, and log output is ignored; neither is
observed by any claim.  Python dictionaries are modelled as insertion-ordered
association lists (updating an existing key keeps its position, a new key is
appended), matching CPython semantics.  A Python exception that a method
catches internally is modelled by the early-return value the handler produces,
with any in-place mutations that happened before the raise kept in the state.
-/

/-- Vectors are lists of rationals (`np.float32` rows in the source). -/
abbrev Vec := List ℚ

/-- Squared Euclidean distance, the value FAISS METRIC_L2 search reports.
Defined by structural recursion; callers guarantee equal lengths (the source
raises on dimension mismatch before any search runs). -/
def sqL2 : Vec → Vec → ℚ
  | a :: as, b :: bs => (a - b) ^ 2 + sqL2 as bs
  | _, _ => 0

/-- A FAISS flat L2 index: the dimension `d` and the stored vectors in id
order (`faiss.IndexFlatL2`; id = position, `ntotal` = number stored). -/
structure FlatIndex where
  d : ℕ
  vecs : List Vec
deriving DecidableEq, Repr

/-- Number of stored vectors (`index.ntotal`). -/
def FlatIndex.ntotal (ix : FlatIndex) : ℕ := ix.vecs.length

/-- All (id, squared distance) pairs for a query, in id order
(`faiss` scans the flat storage linearly). -/
def distPairs (ix : FlatIndex) (q : Vec) : List (ℤ × ℚ) :=
  (List.range ix.vecs.length).map fun i => (Int.ofNat i, sqL2 (ix.vecs.getD i []) q)

/-- Comparison used to rank search results: smaller distance first. -/
def distLe (p q : ℤ × ℚ) : Prop := p.2 ≤ q.2

instance : DecidableRel distLe := fun p q => inferInstanceAs (Decidable (p.2 ≤ q.2))

instance : IsTotal (ℤ × ℚ) distLe := ⟨fun p q => le_total p.2 q.2⟩

instance : IsTrans (ℤ × ℚ) distLe := ⟨fun _ _ _ h h' => le_trans h h'⟩

/-- `index.search(query, k)`: the `k` nearest neighbours by squared L2
distance.  When `k` exceeds `ntotal`, FAISS pads the result with the sentinel
id `-1` (the padded distance slot is never read by the Python code; `0` is
used here as its placeholder). -/
def faissSearch (ix : FlatIndex) (q : Vec) (k : ℕ) : List (ℤ × ℚ) :=
  let sorted := List.insertionSort distLe (distPairs ix q)
  let hits := sorted.take k
  hits ++ List.replicate (k - hits.length) ((-1 : ℤ), 0)

/-- Distance from a query to its nearest stored vector: the distance slot of
the best hit of a `k = 1` search (`0` for an empty index, a case the dedup
filter never reaches). -/
def nnDist (ix : FlatIndex) (q : Vec) : ℚ :=
  match List.insertionSort distLe (distPairs ix q) with
  | [] => 0
  | p :: _ => p.2

/-- The dedup filter of `add_vectors` (faiss_connect.py:1027-1047): a
candidate is a duplicate when the `k = 1` search returns a real id and a
METRIC_L2 value below the hardwired `0.01` threshold. -/
def isDuplicate (ix : FlatIndex) (v : Vec) : Bool :=
  match faissSearch ix v 1 with
  | [] => false
  | (i, dd) :: _ => decide (i ≠ -1) && decide (dd < (1 : ℚ) / 100)

/-- One metadata entry.  The source stores per-vector dicts with a `text`
field and a nested `metadata` map; the fields this development observes are
`text` and the nested `file_name` / `file_path` annotations `add_vectors`
writes (faiss_connect.py:950-963).  A raw Python `{}` is the entry with all
fields empty. -/
structure MetaEntry where
  text : String := ""
  file_name : Option String := none
  file_path : Option String := none
deriving DecidableEq, Repr

/-- The empty Python dict used as a metadata default. -/
def emptyMeta : MetaEntry := {}

/-- Key of a dict-form metadata table: JSON object keys are strings, but
`delete_vectors` rebuilds the table with Python int keys
(faiss_connect.py:1479-1482), so both key kinds coexist. -/
inductive MKey where
  | s (v : String)
  | i (v : ℤ)
deriving DecidableEq, Repr

/-- Dict-form metadata table: insertion-ordered. -/
abbrev MetaDict := List (MKey × MetaEntry)

/-- Lookup in a dict-form metadata table. -/
def mdGet (d : MetaDict) (k : MKey) : Option MetaEntry :=
  match d.find? (fun p => p.1 = k) with
  | some p => some p.2
  | none => none

/-- Python dict assignment: update in place, else append. -/
def mdSet (d : MetaDict) (k : MKey) (v : MetaEntry) : MetaDict :=
  match d with
  | [] => [(k, v)]
  | (k', v') :: t => if k' = k then (k, v) :: t else (k', v') :: mdSet t k v

/-- The Metadata Table: the source supports both a JSON array (position = id)
and a JSON object keyed by stringified id, normalising neither. -/
inductive MetaTable where
  | list (es : List MetaEntry)
  | dict (es : MetaDict)
deriving DecidableEq, Repr

/-- Number of entries (`len(...)` on the Python list or dict). -/
def MetaTable.size : MetaTable → ℕ
  | .list es => es.length
  | .dict es => es.length

/-- One Version record of a File Record (faiss_connect.py:882-888). -/
structure Version where
  version : ℕ
  vector_count : ℕ
  vector_ids : List ℤ
  created_at : String := "ts"
deriving DecidableEq, Repr

/-- A File Record of the File Registry (faiss_connect.py:876-891). -/
structure FileRecord where
  file_name : String
  file_path : String
  added_at : String := "ts"
  vector_count : ℕ
  last_updated : String := "ts"
  versions : List Version
  current_version : ℕ
deriving DecidableEq, Repr

/-- A value of the registry dict: either a File Record or one of the
aggregate bookkeeping values (`_created_at` / `_last_updated` hold strings,
`_file_count` / `_vector_count` hold ints). -/
inductive RegEntry where
  | record (r : FileRecord)
  | strVal (v : String)
  | natVal (v : ℕ)
deriving DecidableEq, Repr

/-- The File Registry: one insertion-ordered dict per collection. -/
abbrev FileRegistry := List (String × RegEntry)

/-- Registry lookup. -/
def regGet (reg : FileRegistry) (k : String) : Option RegEntry :=
  match reg.find? (fun p => p.1 = k) with
  | some p => some p.2
  | none => none

/-- Registry dict assignment: update in place, else append. -/
def regSet (reg : FileRegistry) (k : String) (v : RegEntry) : FileRegistry :=
  match reg with
  | [] => [(k, v)]
  | (k', v') :: t => if k' = k then (k, v) :: t else (k', v') :: regSet t k v

/-- One Change Log event.  The source records an event-type string, an
optional file name, a timestamp and a payload dict; only the first two are
observable by the claims, so the payload and timestamp are elided. -/
structure Event where
  event_type : String
  file_name : Option String := none
deriving DecidableEq, Repr

/-- Placeholder for `datetime.now().isoformat()`. -/
def nowTs : String := "ts"

/-- Collection Info entry kept in `collections_info.json` (only the fields a
claim can observe). -/
structure CollectionInfo where
  dimension : ℕ
  index_type : String
deriving DecidableEq, Repr

/-- On-disk artifacts of one collection (plus its `collections_info.json`
entry).  `none` means the file is absent.  Writes are modelled as atomic: a
failed write leaves no file. -/
structure Disk where
  indexFile : Option FlatIndex := none
  metaFile : Option MetaTable := none
  registryFile : Option FileRegistry := none
  historyFile : Option (List Event) := none
  infoFile : Option CollectionInfo := none
deriving DecidableEq, Repr

/-- In-memory caches of one collection (the per-name slots of
`self.indexes`, `self.metadata`, `self.file_registry`,
`self.file_change_history`).  `none` means the name is not a key yet. -/
structure Mem where
  index : Option FlatIndex := none
  meta : Option MetaTable := none
  registry : Option FileRegistry := none
  history : Option (List Event) := none
deriving DecidableEq, Repr

/-- Full state of the manager restricted to one collection. -/
structure St where
  disk : Disk
  mem : Mem
deriving DecidableEq, Repr

/-- First-some choice, used for "load only when the cache slot is absent". -/
def loadOpt {α : Type} (a b : Option α) : Option α :=
  match a with
  | some x => some x
  | none => b

/-- `collection_exists` (faiss_connect.py:674-691): the in-memory index cache
is checked first, then both the index and metadata artifacts on disk. -/
def collection_exists (s : St) : Bool :=
  s.mem.index.isSome || (s.disk.indexFile.isSome && s.disk.metaFile.isSome)

/-- Populate every absent cache slot the way the `_load_*` helpers do: the
index loads only if its artifact exists; a missing metadata / registry /
history artifact degrades to an empty container (faiss_connect.py:528-531,
580-583, 632-636). -/
def loadAll (s : St) : St :=
  { s with
    mem :=
      { index := loadOpt s.mem.index s.disk.indexFile
        meta := loadOpt s.mem.meta (loadOpt s.disk.metaFile (some (.dict [])))
        registry := loadOpt s.mem.registry (loadOpt s.disk.registryFile (some []))
        history := loadOpt s.mem.history (loadOpt s.disk.historyFile (some [])) } }

/-- Injected failure point for `create_collection`'s artifact writes. -/
inductive CreateFail where
  | none
  | indexW
  | metaW
  | registryW
  | historyW
  | infoW
deriving DecidableEq, Repr

/-- `create_collection` (faiss_connect.py:145-258).  Only the `"Flat"` index
type is modelled: IVF / HNSW creation trains on random float vectors, outside
this rational model, and every claim exercises the flat type (the rollback
logic under verification is identical for all three).  The duplicate check
looks only at the index artifact; each later write failure removes every
artifact written before it. -/
def create_collection (s : St) (dim : ℕ) (index_type : String) (fail : CreateFail) :
    St × Bool :=
  if s.disk.indexFile.isSome then (s, false)
  else if index_type ≠ "Flat" then (s, false)
  else
    match fail with
    | .indexW => (s, false)
    | .metaW =>
        ({ s with disk := { s.disk with indexFile := none } }, false)
    | .registryW =>
        ({ s with disk := { s.disk with indexFile := none, metaFile := none } }, false)
    | .historyW =>
        ({ s with disk :=
            { s.disk with
              indexFile := none
              metaFile := none
              registryFile := none } },
         false)
    | .infoW =>
        ({ s with disk :=
            { s.disk with
              indexFile := none
              metaFile := none
              registryFile := none
              historyFile := none } },
         false)
    | .none =>
        ({ s with disk :=
            { s.disk with
              indexFile := some ⟨dim, []⟩
              metaFile := some (.list [])
              registryFile := some []
              historyFile := some []
              infoFile := some ⟨dim, index_type⟩ } },
         true)

/-- `os.path.basename`: the suffix after the last `/` (empty for a trailing
slash, the whole string when no slash occurs). -/
def basename (p : String) : String :=
  String.mk ((p.data.reverse.takeWhile fun c => c ≠ '/').reverse)

/-- Append one Change Log event and sync the history artifact
(`_record_collection_event` / `_record_file_event`,
faiss_connect.py:429-456). -/
def recordEvent (s : St) (ev : Event) : St :=
  let h := (loadOpt s.mem.history (loadOpt s.disk.historyFile (some []))).getD [] ++ [ev]
  { s with mem := { s.mem with history := some h },
           disk := { s.disk with historyFile := some h } }

/-- Append several events in order (one `_record_file_event` call each). -/
def recordEvents (s : St) (evs : List Event) : St :=
  match evs with
  | [] => s
  | ev :: t => recordEvents (recordEvent s ev) t

/-- Result dict of `add_vectors`.  `ok` is `status == "success"`; the three
`Option` fields model presence of the `count` / `duplicates` / `file_name`
keys in the returned dict (the human-readable `message` is elided). -/
structure AddResult where
  ok : Bool
  count : Option ℕ := none
  duplicates : Option ℕ := none
  file_name : Option String := none
deriving DecidableEq, Repr

/-- The error dict `{"status": "error", "message": ...}`. -/
def errAdd : AddResult := { ok := false }

/-- The dedup screening loop of the non-empty-index path
(faiss_connect.py:1027-1047): returns the accepted (vector, metadata) pairs
in order and the duplicate count.  Every candidate is screened against the
same index `ix`; accepted vectors are appended only after the loop. -/
def screen (ix : FlatIndex) : List (Vec × MetaEntry) → List (Vec × MetaEntry) × ℕ
  | [] => ([], 0)
  | p :: t =>
      let rest := screen ix t
      if isDuplicate ix p.1 then (rest.1, rest.2 + 1) else (p :: rest.1, rest.2)

/-- Ids handed to a new Version: `list(range(before_count, before_count +
added_count))` (faiss_connect.py:886, 936, 1104, 1151). -/
def newVersionIds (before added : ℕ) : List ℤ :=
  (List.range added).map fun i => Int.ofNat (before + i)

/-- `max(v.get("version", 0) for v in versions)`. -/
def maxVersion (vs : List Version) : ℕ := (vs.map (·.version)).foldr max 0

/-- File-registry update after an append (faiss_connect.py:874-948 and the
line-for-line identical 1090-1164; the two source branches differ only in
event payloads).  A fresh file name gets a version-1 record; an existing
record gets `vector_count += added` and a new version numbered one above the
maximum.  Returns `none` when the name resolves to a non-record registry
value: Python then raises `TypeError` on item assignment and `add_vectors`'
handler turns that into an error result. -/
def bumpRegistry (reg : FileRegistry) (fn fp : String) (before added : ℕ) :
    Option (FileRegistry × Event) :=
  match regGet reg fn with
  | none =>
      some
        (regSet reg fn
          (.record
            { file_name := fn
              file_path := fp
              vector_count := added
              versions := [⟨1, added, newVersionIds before added, nowTs⟩]
              current_version := 1 }),
         ⟨"file_added", some fn⟩)
  | some (.record r) =>
      let next := if r.versions.isEmpty then 1 else maxVersion r.versions + 1
      some
        (regSet reg fn
          (.record
            { r with
              vector_count := r.vector_count + added
              last_updated := nowTs
              versions := r.versions ++ [⟨next, added, newVersionIds before added, nowTs⟩]
              current_version := next }),
         ⟨"file_updated", some fn⟩)
  | some _ => none

/-- Append the accepted entries to the Metadata Table: list form extends,
dict form assigns keys `str(before + i)` (faiss_connect.py:850-857,
1067-1074). -/
def extendMeta (cm : MetaTable) (before : ℕ) (new : List MetaEntry) : MetaTable :=
  match cm with
  | .list es => .list (es ++ new)
  | .dict d =>
      .dict ((List.range new.length).foldl
        (fun acc i => mdSet acc (.s (toString (before + i))) (new.getD i emptyMeta)) d)

/-- Update one dict entry's file fields when the key is present. -/
def mdMark (d : MetaDict) (k : MKey) (fn fp : String) : MetaDict :=
  match mdGet d k with
  | some e => mdSet d k { e with file_name := some fn, file_path := some fp }
  | none => d

/-- Write `file_name` / `file_path` into the metadata entries of the newly
appended ids (faiss_connect.py:950-963, 1166-1179): positions
`before ≤ p < before + cnt` that exist get annotated. -/
def markMeta (cm : MetaTable) (before cnt : ℕ) (fn fp : String) : MetaTable :=
  match cm with
  | .list es =>
      .list (es.mapIdx fun i e =>
        if before ≤ i ∧ i < before + cnt then
          { e with file_name := some fn, file_path := some fp }
        else e)
  | .dict d =>
      .dict ((List.range cnt).foldl
        (fun acc i => mdMark acc (.s (toString (before + i))) fn fp) d)

/-- Does this registry value hold a File Record (a Python dict)? -/
def RegEntry.isRecord : RegEntry → Bool
  | .record _ => true
  | _ => false

/-- Python's `key.startsWith('_')`, evaluated on the character list. -/
def keyIsInternal (k : String) : Bool :=
  match k.data with
  | c :: _ => c = '_'
  | [] => false

/-- Keys not starting with an underscore (faiss_connect.py:967). -/
def regKeyCount (reg : FileRegistry) : ℕ :=
  (reg.filter fun p => ¬ keyIsInternal p.1).length

/-- Non-underscore keys holding record dicts (faiss_connect.py:380-384). -/
def regRecCount (reg : FileRegistry) : ℕ :=
  (reg.filter fun p => (¬ keyIsInternal p.1) && p.2.isRecord).length

/-- Sum of the `vector_count` fields of those records
(faiss_connect.py:385-386). -/
def regVecSum (reg : FileRegistry) : ℕ :=
  (reg.filter fun p => (¬ keyIsInternal p.1) && p.2.isRecord).foldr
    (fun p acc =>
      match p.2 with
      | .record r => r.vector_count + acc
      | _ => acc) 0

/-- The aggregates-only registry `_save_file_registry` substitutes for an
empty dict (faiss_connect.py:368-374). -/
def freshAggregates : FileRegistry :=
  [("_created_at", .strVal nowTs), ("_last_updated", .strVal nowTs),
   ("_file_count", .natVal 0), ("_vector_count", .natVal 0)]

/-- In-place bookkeeping `_save_file_registry` performs before writing
(faiss_connect.py:356-389): an empty dict is replaced wholesale; otherwise
`_last_updated` is refreshed and `_file_count` / `_vector_count` recomputed
from the record entries (underscore keys are skipped by the recount, so
computing on the pre-update dict is equivalent). -/
def saveRegTransform (reg : FileRegistry) : FileRegistry :=
  if reg.isEmpty then freshAggregates
  else
    regSet
      (regSet (regSet reg "_last_updated" (.strVal nowTs))
        "_file_count" (.natVal (regRecCount reg)))
      "_vector_count" (.natVal (regVecSum reg))

/-- Aggregate refresh `add_vectors` itself performs after a successful append
(faiss_connect.py:965-969, 1181-1185): `_file_count` counts non-underscore
keys, `_vector_count` is set to the new `index.ntotal`. -/
def setAggregates (reg : FileRegistry) (ntot : ℕ) : FileRegistry :=
  regSet
    (regSet (regSet reg "_last_updated" (.strVal nowTs))
      "_file_count" (.natVal (regKeyCount reg)))
    "_vector_count" (.natVal ntot)

/-- Common tail of both `add_vectors` paths once the accepted vectors are
known (faiss_connect.py:832-1009 and 1050-1227): append to the index, extend
the metadata, bump the file registry, annotate the new metadata entries,
refresh aggregates, persist index/metadata/registry (persistence succeeds in
this model) and record the change events.  `dups` is the `duplicates` key of
the success dict (`none` on the empty-index path, which omits it). -/
def commitAdd (s : St) (ix : FlatIndex) (cm : MetaTable) (reg : FileRegistry)
    (av : List Vec) (am : List MetaEntry) (dups : Option ℕ) (fp : String) :
    St × AddResult :=
  let before := ix.ntotal
  let added := av.length
  let ix' : FlatIndex := ⟨ix.d, ix.vecs ++ av⟩
  let cm1 := extendMeta cm before am
  let fn := basename fp
  match bumpRegistry reg fn fp before added with
  | none =>
      (recordEvent
        { s with mem := { s.mem with index := some ix', meta := some cm1 } }
        ⟨"add_vectors_error", none⟩,
       errAdd)
  | some (reg1, ev) =>
      let cm2 := markMeta cm1 before added fn fp
      let reg2 := setAggregates reg1 ix'.ntotal
      let s1 :=
        { s with mem := { s.mem with index := some ix', meta := some cm2, registry := some reg2 } }
      let s2 := recordEvent s1 ev
      let reg3 := saveRegTransform reg2
      let s3 :=
        { s2 with
          mem := { s2.mem with registry := some reg3 }
          disk :=
            { s2.disk with
              indexFile := some ix'
              metaFile := some cm2
              registryFile := some reg3 } }
      let s4 := recordEvent s3 ⟨"vectors_added", none⟩
      (s4, { ok := true, count := some added, duplicates := dups, file_name := some fn })

/-- `add_vectors` (faiss_connect.py:736-1269).  The caller passes a concrete
file path (the `file_path is None` recovery of lines 750-764 is not
exercised).  A missing collection is created on demand with dimension 512
(lines 768-774, 2679-2698).  Vectors of the wrong dimension make
`index.add` / `index.search` raise, which the handler converts to an error
dict after recording an error event; the same happens for an empty vector
list on the empty-index path (`np.array([])` is not a 2-D array). -/
def add_vectors (s : St) (vectors : List Vec) (metadata : List MetaEntry)
    (fp : String) : St × AddResult :=
  let s0 := if collection_exists s then s else (create_collection s 512 "Flat" .none).1
  if ¬ collection_exists s0 then (s0, errAdd)
  else
    let s1 := loadAll s0
    match s1.mem.index, s1.mem.meta, s1.mem.registry with
    | some ix, some cm, some reg =>
        if metadata.length ≠ vectors.length then (s1, errAdd)
        else if ix.ntotal = 0 then
          if vectors.isEmpty ∨ ¬ vectors.all (fun v => decide (v.length = ix.d)) then
            (recordEvent s1 ⟨"add_vectors_error", none⟩, errAdd)
          else commitAdd s1 ix cm reg vectors metadata none fp
        else
          if ¬ vectors.all (fun v => decide (v.length = ix.d)) then
            (recordEvent s1 ⟨"add_vectors_error", none⟩, errAdd)
          else
            let sc := screen ix (vectors.zip metadata)
            if sc.1.isEmpty then
              (recordEvent s1 ⟨"all_vectors_duplicate", none⟩,
               { ok := true, count := some 0, duplicates := some sc.2,
                 file_name := some (basename fp) })
            else commitAdd s1 ix cm reg (sc.1.map (·.1)) (sc.1.map (·.2)) (some sc.2) fp
    | _, _, _ => (s1, errAdd)

/-- Drop the deleted ids from one Version and recount
(faiss_connect.py:1487-1489). -/
def filterVersion (ids : List ℤ) (v : Version) : Version :=
  let nids := v.vector_ids.filter fun vid => decide (vid ∉ ids)
  { v with vector_ids := nids, vector_count := nids.length }

/-- Apply `filterVersion` to every Version of one File Record, emitting one
`vector_delete` event per version whose count changed
(faiss_connect.py:1486-1497).  The record-level `vector_count` is left
untouched, as in the source. -/
def filterRecord (ids : List ℤ) (fn : String) (r : FileRecord) :
    FileRecord × List Event :=
  let evs :=
    (r.versions.filter fun v =>
        decide ((filterVersion ids v).vector_count ≠ v.vector_count)).map
      fun _ => (⟨"vector_delete", some fn⟩ : Event)
  ({ r with versions := r.versions.map (filterVersion ids) }, evs)

/-- The registry loop of `delete_vectors` (faiss_connect.py:1485-1497).  It
iterates over every key of the registry dict, including the aggregate
bookkeeping keys; subscripting their string / int values with `'versions'`
raises `TypeError`, so the loop mutates the records it reached, then stops
with the remainder untouched.  Returns the (possibly partially) mutated
registry, the events recorded before the stop, and whether the loop
finished. -/
def processRegDelete (ids : List ℤ) : FileRegistry → FileRegistry × List Event × Bool
  | [] => ([], [], true)
  | (k, RegEntry.record r) :: t =>
      let p := filterRecord ids k r
      let rest := processRegDelete ids t
      ((k, RegEntry.record p.1) :: rest.1, p.2 ++ rest.2.1, rest.2.2)
  | (k, e) :: t => ((k, e) :: t, [], false)

/-- The retained ids of a delete: `[i for i in range(total) if i not in ids]`
(faiss_connect.py:1480-1481). -/
def retainedIds (total : ℕ) (ids : List ℤ) : List ℕ :=
  (List.range total).filter fun i => decide (Int.ofNat i ∉ ids)

/-- Does the `new_metadata` loop of `delete_vectors` raise before any
mutation?  A list-form table has no `.get`, so the first retained id raises
`AttributeError` (faiss_connect.py:1482); with no retained id the loop body
never runs, and a dict-form table never raises here. -/
def deleteCrashesEarly (cm : MetaTable) (total : ℕ) (ids : List ℤ) : Bool :=
  match cm with
  | .list _ => !(retainedIds total ids).isEmpty
  | .dict _ => false

/-- The replacement metadata `delete_vectors` builds: int-keyed entries for
the retained ids, looked up with Python int keys so string-keyed entries
default to `{}` (faiss_connect.py:1479-1482).  The list arm is only reached
with no retained ids, leaving the empty dict. -/
def rebuildMeta (cm : MetaTable) (total : ℕ) (ids : List ℤ) : MetaTable :=
  match cm with
  | .list _ => .dict []
  | .dict d =>
      .dict ((retainedIds total ids).map fun i =>
        (MKey.i (Int.ofNat i), (mdGet d (.i (Int.ofNat i))).getD emptyMeta))

/-- The tail of `delete_vectors` after the metadata loop survived: run the
registry loop, record its events; if it stopped on a non-record value the
partially mutated registry stays cached and the call fails, otherwise the
fresh empty index and rebuilt metadata are swapped in and persisted
(faiss_connect.py:1485-1515). -/
def deleteCommit (s1 : St) (ix : FlatIndex) (cm : MetaTable) (ids : List ℤ) :
    St × Bool :=
  match processRegDelete ids ((s1.mem.registry).getD []) with
  | (reg', evs, ok) =>
    if ¬ ok then
      (recordEvents { s1 with mem := { s1.mem with registry := some reg' } } evs, false)
    else
      (recordEvent
        { recordEvents { s1 with mem := { s1.mem with registry := some reg' } } evs with
          mem :=
            { (recordEvents { s1 with mem := { s1.mem with registry := some reg' } } evs).mem with
              index := some ⟨ix.d, []⟩
              meta := some (rebuildMeta cm ix.ntotal ids)
              registry := some (saveRegTransform reg') }
          disk :=
            { (recordEvents { s1 with mem := { s1.mem with registry := some reg' } } evs).disk with
              indexFile := some ⟨ix.d, []⟩
              metaFile := some (rebuildMeta cm ix.ntotal ids)
              registryFile := some (saveRegTransform reg') } }
        ⟨"vector_delete", none⟩, true)

/-- `delete_vectors` (faiss_connect.py:1432-1519).  FAISS has no native
delete, so the source builds a fresh empty index; the loop meant to collect
the retained vectors is a `pass` placeholder (lines 1470-1476), so nothing
is ever re-added.  See `deleteCrashesEarly`, `rebuildMeta` and
`deleteCommit` for the three stages. -/
def delete_vectors (s : St) (ids : List ℤ) : St × Bool :=
  if ¬ collection_exists s then (s, false)
  else
    match (loadAll s).mem.index, (loadAll s).mem.meta with
    | some ix, some cm =>
        if ix.ntotal = 0 then (loadAll s, true)
        else if deleteCrashesEarly cm ix.ntotal ids then (loadAll s, false)
        else deleteCommit (loadAll s) ix cm ids
    | _, _ => (loadAll s, false)

/-- `next((v for v in versions if v['version'] == n), None)`. -/
def findVersion (vs : List Version) (n : ℕ) : Option Version :=
  vs.find? fun v => v.version = n

/-- `replace_file` (faiss_connect.py:1712-1759).  When the file has a record
whose current version is present, the current version's vector ids are handed
to `delete_vectors` — whose return value is ignored — and the new content is
then added via `add_vectors`.  The Python function returns the `add_vectors`
result dict (always truthy) on that path and `False` (`none` here) when the
collection is missing or the registry value for the name is not a dict
(reading `current_version` from it raises and the handler returns `False`). -/
def replace_file (s : St) (fp : String) (vectors : List Vec)
    (metadata : List MetaEntry) : St × Option AddResult :=
  if ¬ collection_exists s then (s, none)
  else
    let s1 := loadAll s
    let fn := basename fp
    match regGet ((s1.mem.registry).getD []) fn with
    | some (.record r) =>
        match findVersion r.versions r.current_version with
        | some cv =>
            let s2 := (delete_vectors s1 cv.vector_ids).1
            let p := add_vectors s2 vectors metadata fp
            (p.1, some p.2)
        | none =>
            let p := add_vectors s1 vectors metadata fp
            (p.1, some p.2)
    | some _ => (s1, none)
    | none =>
        let p := add_vectors s1 vectors metadata fp
        (p.1, some p.2)

/-- Return triple of `search`: parallel lists of ids, raw METRIC_L2
distances, and metadata entries.  The Python code returns
`np.exp(-d)` of each distance; that real-valued transform is applied in the
theorem statements, the model keeps the exact rationals it is applied to. -/
structure SearchResult where
  ids : List ℤ
  dists : List ℚ
  metas : List MetaEntry
deriving DecidableEq, Repr

/-- The `return [], [], []` value used for every failure mode of `search`. -/
def emptySearch : SearchResult := ⟨[], [], []⟩

/-- Metadata lookup for a result id (faiss_connect.py:1373-1387): dict tables
try the stringified key then the int key, list tables are indexed when
`0 <= idx < len`.  (Python's `get(str(idx)) or get(idx, {})` also falls
through when the string-keyed hit is an empty dict; that can only ever swap
one empty entry for another and is not modelled.) -/
def metaLookup (cm : MetaTable) (idx : ℤ) : MetaEntry :=
  match cm with
  | .dict d =>
      match mdGet d (.s (toString idx)) with
      | some e => e
      | none => (mdGet d (.i idx)).getD emptyMeta
  | .list es => if 0 ≤ idx then es.getD idx.toNat emptyMeta else emptyMeta

/-- `search` (faiss_connect.py:1271-1399).  Loads fall back to disk; an empty
index, a load failure or a query of the wrong dimension all return the empty
triple (the dimension mismatch is only logged, lines 1331-1333).  Otherwise
`top_k` is capped at `ntotal`, sentinel `-1` ids are dropped, and the
surviving ids, distances and metadata entries are returned as parallel
lists.  The warn-only consistency pass (line 1296) and the cache population
of a read-only call do not affect the returned value and are elided. -/
def search (s : St) (q : Vec) (top_k : ℕ) : SearchResult :=
  match loadOpt s.mem.index s.disk.indexFile,
        loadOpt s.mem.meta (loadOpt s.disk.metaFile (some (.dict []))) with
  | some ix, some cm =>
      if ix.ntotal = 0 then emptySearch
      else if q.length ≠ ix.d then emptySearch
      else if ((faissSearch ix q (min top_k ix.ntotal)).filter
          fun p => decide (p.1 ≠ -1)).isEmpty then emptySearch
      else
        ⟨((faissSearch ix q (min top_k ix.ntotal)).filter fun p => decide (p.1 ≠ -1)).map (·.1),
         ((faissSearch ix q (min top_k ix.ntotal)).filter fun p => decide (p.1 ≠ -1)).map (·.2),
         ((faissSearch ix q (min top_k ix.ntotal)).filter fun p => decide (p.1 ≠ -1)).map
           fun p => metaLookup cm p.1⟩
  | _, _ => emptySearch

/-- Result of `diagnose_knowledge_base` (faiss_connect.py:2473-2485); the
`paths` map and `repair_suggestion` are elided. -/
structure DiagResult where
  status : String
  collection_exists : Bool
  index_exists : Bool
  metadata_exists : Bool
  file_registry_exists : Bool
  index_count : ℕ
  metadata_count : ℕ
  file_registry_count : ℕ
  is_consistent : Bool
  issues : List String
deriving DecidableEq, Repr

/-- Issue text for a missing collection (faiss_connect.py:2492). -/
def issueNotExists : String := "collection does not exist"

/-- Issue text produced when `index.ntotal` is read off the `True` that
`_load_index` returned (faiss_connect.py:2518-2520). -/
def issueLoadIndexBool : String :=
  "failed to load index: bool object has no attribute ntotal"

/-- Issue text produced when `len(metadata)` is taken of the `True` that
`_load_metadata` returned (faiss_connect.py:2523-2526). -/
def issueLoadMetaBool : String :=
  "failed to load metadata: object of type bool has no len"

/-- Issue text produced when `len(file_registry)` is taken of the `True` that
`_load_file_registry` returned (faiss_connect.py:2529-2532). -/
def issueLoadRegistryBool : String :=
  "failed to load file registry: object of type bool has no len"

/-- The size-mismatch issue line 2542 would append.  Formatting it reads
`index.ntotal` off a bool, so the `AttributeError` escapes to the outer
handler and this text is never emitted. -/
def issueSizeMismatch : String := "index count does not match metadata count"

/-- Issue text of the outer exception handler (faiss_connect.py:2559-2564). -/
def issueDiagnoseCrash : String :=
  "error during diagnosis: bool object has no attribute ntotal"

/-- `diagnose_knowledge_base` (faiss_connect.py:2463-2564).  The `_load_*`
helpers return booleans (their signatures: lines 458, 516, 568), but lines
2517-2530 bind those booleans to `index` / `metadata` / `file_registry` and
then use them as the loaded objects.  Consequences, mirrored here exactly:
reading `index.ntotal` off `True` raises and is caught (issue appended,
count stays 0; a `False` from a missing index file short-circuits to 0 with
no issue); `len(True)` for metadata and registry raises likewise, and both
loaders return `True` even for a missing file (they substitute an empty
container, lines 528-531 / 580-583); finally the consistency check at
2535-2542 falls into its else branch (a bool is neither list nor dict) and
formatting the mismatch issue re-reads `index.ntotal`, whose
`AttributeError` escapes to the outer handler: status `"error"`, one crash
issue appended, `is_consistent` left `False`.  The loads overwrite the
caches from disk on success. -/
def diagnose_knowledge_base (s : St) : St × DiagResult :=
  if ¬ collection_exists s then
    (s,
     { status := "error", collection_exists := false, index_exists := false
       metadata_exists := false, file_registry_exists := false, index_count := 0
       metadata_count := 0, file_registry_count := 0, is_consistent := false
       issues := [issueNotExists] })
  else
    let ie := s.disk.indexFile.isSome
    let me := s.disk.metaFile.isSome
    let re := s.disk.registryFile.isSome
    let s1 :=
      { s with mem :=
        { s.mem with
          index := loadOpt s.disk.indexFile s.mem.index
          meta := some ((s.disk.metaFile).getD (.dict []))
          registry := some ((s.disk.registryFile).getD []) } }
    (s1,
     { status := "error", collection_exists := true, index_exists := ie
       metadata_exists := me, file_registry_exists := re, index_count := 0
       metadata_count := 0, file_registry_count := 0, is_consistent := false
       issues :=
         (if ie then [issueLoadIndexBool] else []) ++
           [issueLoadMetaBool, issueLoadRegistryBool, issueDiagnoseCrash] })

/-- Result of `repair_knowledge_base` (faiss_connect.py:2576-2581); the
`message` / `remaining_issues` fields are elided. -/
structure RepairResult where
  status : String
  success : Bool
  issues_found : List String
  repairs_made : List String
deriving DecidableEq, Repr

/-- `repair_knowledge_base` (faiss_connect.py:2566-2677).  The opening
diagnosis is never `"ok"`-and-consistent (see `diagnose_knowledge_base`), so
the repair body always runs; it re-binds the boolean returns of the `_load_*`
helpers as the loaded objects, and the very first use — line 2617's
`index is not None and index.ntotal > 0` — raises `AttributeError` on the
bool, which the outer handler converts to `status "error"`, `success False`.
The metadata-padding branch (lines 2619-2641, the entries flagged
`repaired: True`) is therefore unreachable and `repairs_made` stays empty. -/
def repair_knowledge_base (s : St) : St × RepairResult :=
  let p := diagnose_knowledge_base s
  if p.2.status = "ok" ∧ p.2.is_consistent then
    (p.1, { status := "success", success := true, issues_found := [], repairs_made := [] })
  else
    let s2 : St :=
      ⟨p.1.disk,
       ⟨loadOpt p.1.disk.indexFile p.1.mem.index,
        some ((p.1.disk.metaFile).getD (.dict [])),
        some ((p.1.disk.registryFile).getD []),
        p.1.mem.history⟩⟩
    (s2,
     { status := "error", success := false, issues_found := p.2.issues
       repairs_made := [] })

attribute [local semireducible] Rat.add Rat.mul Rat.sub Rat.inv

/-- View of the effective index (cache first, then disk), used to observe
states. -/
def indexView (s : St) : Option FlatIndex := loadOpt s.mem.index s.disk.indexFile

/-- Effective `index.ntotal` of a state. -/
def indexSize (s : St) : Option ℕ := (indexView s).map FlatIndex.ntotal

/-- View of the effective Metadata Table. -/
def metaView (s : St) : Option MetaTable := loadOpt s.mem.meta s.disk.metaFile

/-- Effective Metadata Table entry count. -/
def metaSize (s : St) : Option ℕ := (metaView s).map MetaTable.size

/-- View of the effective File Registry. -/
def registryView (s : St) : FileRegistry :=
  (loadOpt s.mem.registry s.disk.registryFile).getD []

/-- The File Record stored under a file name, when one is present. -/
def fileRecordView (s : St) (fn : String) : Option FileRecord :=
  match regGet (registryView s) fn with
  | some (.record r) => some r
  | _ => none

/-- The record-level `vector_count` of a File Record. -/
def fileVectorCount (s : St) (fn : String) : Option ℕ :=
  (fileRecordView s fn).map (·.vector_count)

/-- The version numbers of a File Record, in list order. -/
def fileVersionNumbers (s : St) (fn : String) : List ℕ :=
  ((fileRecordView s fn).map fun r => r.versions.map (·.version)).getD []

/-- The `vector_ids` lists of a File Record's versions, in list order. -/
def fileVersionIds (s : St) (fn : String) : List (List ℤ) :=
  ((fileRecordView s fn).map fun r => r.versions.map (·.vector_ids)).getD []

/-- The `current_version` pointer of a File Record. -/
def fileCurrentVersion (s : St) (fn : String) : Option ℕ :=
  (fileRecordView s fn).map (·.current_version)

/-- A metadata entry holding only a text. -/
def mkMeta (t : String) : MetaEntry := { text := t }

/-- A state with nothing on disk and nothing cached. -/
def cleanSt : St := ⟨{}, {}⟩

/-- A freshly created dimension-4 flat collection. -/
def fresh4 : St := (create_collection cleanSt 4 "Flat" .none).1

/-- Five pairwise-distant unit-scale vectors. -/
def vecs5 : List Vec := [[1,0,0,0], [0,1,0,0], [0,0,1,0], [0,0,0,1], [1,1,0,0]]

/-- Metadata entries for `vecs5`. -/
def metas5 : List MetaEntry :=
  [mkMeta "t0", mkMeta "t1", mkMeta "t2", mkMeta "t3", mkMeta "t4"]

/-- The state after inserting `vecs5` for file `a.txt` into `fresh4`. -/
def added5 : St := (add_vectors fresh4 vecs5 metas5 "docs/a.txt").1

/-- The state after inserting the single vector `[1,0,0,0]` into `fresh4`. -/
def added1 : St := (add_vectors fresh4 [[1,0,0,0]] [mkMeta "t"] "docs/a.txt").1

/-- Replacement vectors, far from every member of `vecs5`. -/
def vecsNew : List Vec := [[5,5,5,5], [6,6,6,6], [7,7,7,7]]

/-- Metadata entries for `vecsNew`. -/
def metasNew : List MetaEntry := [mkMeta "n0", mkMeta "n1", mkMeta "n2"]

/-- A collection whose metadata artifact is the dict (JSON object) form and
whose registry holds no file records: both forms are accepted on load
(spec §3), and such artifacts arise from externally written side-tables. -/
def dictState : St :=
  ⟨{ indexFile := some ⟨1, [[0], [1]]⟩
     metaFile := some (.dict [(.s "0", mkMeta "a"), (.s "1", mkMeta "b")])
     registryFile := some []
     historyFile := some [] }, {}⟩

/-- A collection whose Metadata Table was externally truncated to 3 entries
while the index holds 5 vectors — the diagnose/repair scenario of spec §8. -/
def skewedState : St :=
  ⟨{ indexFile := some ⟨1, [[0], [1], [2], [3], [4]]⟩
     metaFile := some (.list [mkMeta "m0", mkMeta "m1", mkMeta "m2"])
     registryFile := some []
     historyFile := some [] }, {}⟩

/-- The three-vector dimension-4 collection of the spec's search example. -/
def threeVec : St :=
  ⟨{ indexFile := some ⟨4, [[1,0,0,0], [0,1,0,0], [0,0,1,0]]⟩
     metaFile := some (.list [mkMeta "m0", mkMeta "m1", mkMeta "m2"])
     registryFile := some []
     historyFile := some [] }, {}⟩

/-- C1: the claim states that `deleteVectors` rebuilds an empty index and
re-adds every retained vector so that deleting 2 of 5 inserted vectors
leaves index size 3, `vector_count` 3, and no `vector_ids` entry `≥ 3`.  The
code does none of this: on the claim's own scenario (5 vectors inserted for
`a.txt`, then `delete_vectors [0, 1]`) the call fails — the list-form
metadata has no `.get`, so line 1482 raises before any mutation — returning
`False` and leaving the state byte-for-byte unchanged: index size 5,
`vector_count` 5, `vector_ids` still `[0, 1, 2, 3, 4]`.  Even on states that
reach the rebuild (see C2) the fresh index never receives the retained
vectors, because the re-add loop is a `pass` placeholder
(faiss_connect.py:1470-1476). -/
theorem c1_deleteVectors_leaves_vectors_in_place :
    (delete_vectors added5 [0, 1]).2 = false ∧
    (delete_vectors added5 [0, 1]).1 = added5 ∧
    indexSize added5 = some 5 ∧
    fileVectorCount added5 "a.txt" = some 5 ∧
    fileVersionIds added5 "a.txt" = [[0, 1, 2, 3, 4]] := by decide

/-- C2: the claim states that after every successful mutating operation the
Metadata Table entry count equals the index size.  A successful
`delete_vectors` breaks it: on a collection whose side-tables are in the
(supported) dict form with no file records registered, deleting id 0 of 2
succeeds (`True`), yet the rebuilt index is empty — the retained vector is
never re-added — while the rebuilt metadata keeps one entry: `0 ≠ 1`. -/
theorem c2_successful_delete_breaks_size_invariant :
    (delete_vectors dictState [0]).2 = true ∧
    indexSize (delete_vectors dictState [0]).1 = some 0 ∧
    metaSize (delete_vectors dictState [0]).1 = some 1 := by decide

/-- C7: the claim states that on a collection with 3 metadata entries and 5
indexed vectors, diagnose reports `is_consistent = false` with a
size-mismatch issue, repair pads the metadata to 5 entries flagged
`repaired`, and a second diagnose reports `is_consistent = true`.  In the
code, `diagnose_knowledge_base` treats the booleans returned by the loaders
as the loaded objects, so it always aborts with attribute errors:
`is_consistent` is indeed `false`, but no size-mismatch issue is ever
emitted, `repair_knowledge_base` crashes the same way before its padding
branch (`success = false`, `repairs_made = []`, metadata still 3 entries),
and the follow-up diagnose still reports `is_consistent = false`. -/
theorem c7_diagnose_repair_never_reach_consistency :
    (diagnose_knowledge_base skewedState).2.is_consistent = false ∧
    issueSizeMismatch ∉ (diagnose_knowledge_base skewedState).2.issues ∧
    (repair_knowledge_base (diagnose_knowledge_base skewedState).1).2.success = false ∧
    (repair_knowledge_base (diagnose_knowledge_base skewedState).1).2.repairs_made = [] ∧
    metaSize (repair_knowledge_base (diagnose_knowledge_base skewedState).1).1 = some 3 ∧
    indexSize (repair_knowledge_base (diagnose_knowledge_base skewedState).1).1 = some 5 ∧
    (diagnose_knowledge_base
      (repair_knowledge_base (diagnose_knowledge_base skewedState).1).1).2.is_consistent
      = false := by decide

/-- C4 counterexample: the claim states that every successful `add_vectors`
call returns `acceptedCount`, `duplicateCount` and `fileName`, including
calls taken on an empty index.  The empty-index success dict
(faiss_connect.py:1004-1009) carries `count` and `file_name` but no
`duplicates` key. -/
theorem c4_counterexample_empty_path_omits_duplicates :
    (add_vectors fresh4 vecs5 metas5 "docs/a.txt").2.ok = true ∧
    (add_vectors fresh4 vecs5 metas5 "docs/a.txt").2.count = some 5 ∧
    (add_vectors fresh4 vecs5 metas5 "docs/a.txt").2.file_name = some "a.txt" ∧
    (add_vectors fresh4 vecs5 metas5 "docs/a.txt").2.duplicates = none := by decide

/-- C6 counterexample: the claim states that a query of the wrong dimension
fails with a `DimensionMismatch` error reporting the expected and actual
dimensions to the caller.  The code only logs those dimensions and returns
the plain empty triple (faiss_connect.py:1331-1333) — the very value an
empty collection's search returns — so the caller receives no error and no
dimensions. -/
theorem c6_counterexample_dimension_mismatch_returns_empty :
    search threeVec [1, 0, 0] 5 = emptySearch ∧
    search fresh4 [1, 0, 0, 0] 5 = emptySearch := by decide

/-- C9 counterexample: the claim states that `replace_file` deletes the
current version's vectors first.  On the canonical scenario (5 vectors for
`a.txt`, then replace with 3 fresh vectors) the inner `delete_vectors` fails
— its registry loop trips over the aggregate keys — and `replace_file`
ignores the failure: afterwards the index holds 8 vectors and the original
five are still stored at ids 0-4. -/
theorem c9_counterexample_replace_keeps_old_vectors :
    (replace_file added5 "docs/a.txt" vecsNew metasNew).2 =
      some { ok := true, count := some 3, duplicates := some 0, file_name := some "a.txt" } ∧
    indexSize (replace_file added5 "docs/a.txt" vecsNew metasNew).1 = some 8 ∧
    (indexView (replace_file added5 "docs/a.txt" vecsNew metasNew).1).map
        (fun ix => ix.vecs.take 5) = some vecs5 := by decide

@[simp] theorem loadOpt_some {α : Type} (x : α) (b : Option α) :
    loadOpt (some x) b = some x := rfl

@[simp] theorem loadOpt_none {α : Type} (b : Option α) : loadOpt none b = b := rfl

theorem sqL2_nonneg (u v : Vec) : 0 ≤ sqL2 u v := by
  induction u generalizing v with
  | nil => simp [sqL2]
  | cons a as ih =>
    cases v with
    | nil => simp [sqL2]
    | cons b bs => exact add_nonneg (sq_nonneg _) (ih bs)

theorem distPairs_length (ix : FlatIndex) (q : Vec) :
    (distPairs ix q).length = ix.ntotal := by
  simp [distPairs, FlatIndex.ntotal]


theorem mem_distPairs {ix : FlatIndex} {q : Vec} {p : ℤ × ℚ}
    (h : p ∈ distPairs ix q) : 0 ≤ p.1 ∧ 0 ≤ p.2 := by
  simp only [distPairs, List.mem_map, List.mem_range] at h
  obtain ⟨i, _, rfl⟩ := h
  exact ⟨Int.ofNat_nonneg i, sqL2_nonneg _ _⟩

theorem insertionSort_distPairs_ne_nil {ix : FlatIndex} {q : Vec}
    (h : ix.vecs ≠ []) : List.insertionSort distLe (distPairs ix q) ≠ [] := by
  intro hnil
  have hlen := List.length_insertionSort distLe (distPairs ix q)
  rw [hnil, distPairs_length] at hlen
  exact h (List.length_eq_zero.mp (by simpa [FlatIndex.ntotal] using hlen.symm))

/-- The best hit of a `k = 1` flat search: a genuine nonnegative id paired
with `nnDist`, the minimum distance. -/
theorem faissSearch_one {ix : FlatIndex} {q : Vec} (h : ix.vecs ≠ []) :
    ∃ i : ℤ, faissSearch ix q 1 = [(i, nnDist ix q)] ∧ 0 ≤ i := by
  rcases hs : List.insertionSort distLe (distPairs ix q) with _ | ⟨p, t⟩
  · exact absurd hs (insertionSort_distPairs_ne_nil h)
  · refine ⟨p.1, ?_, ?_⟩
    · simp [faissSearch, nnDist, hs]
    · have hp : p ∈ distPairs ix q := by
        have : p ∈ List.insertionSort distLe (distPairs ix q) := by
          rw [hs]; exact List.mem_cons_self p t
        exact (List.mem_insertionSort distLe).mp this
      exact (mem_distPairs hp).1

/-- `nnDist` is a lower bound on every stored distance (the head of the
sorted hit list is minimal). -/
theorem nnDist_le_of_mem {ix : FlatIndex} {q : Vec} {p : ℤ × ℚ}
    (hp : p ∈ distPairs ix q) : nnDist ix q ≤ p.2 := by
  rcases hs : List.insertionSort distLe (distPairs ix q) with _ | ⟨hd, t⟩
  · have : p ∈ List.insertionSort distLe (distPairs ix q) :=
      (List.mem_insertionSort distLe).mpr hp
    rw [hs] at this
    simp at this
  · have hsorted := List.sorted_insertionSort distLe (distPairs ix q)
    rw [hs] at hsorted
    have hmem : p ∈ List.insertionSort distLe (distPairs ix q) :=
      (List.mem_insertionSort distLe).mpr hp
    rw [hs] at hmem
    rcases List.mem_cons.mp hmem with rfl | hmem'
    · simp [nnDist, hs]
    · have := List.rel_of_sorted_cons hsorted p hmem'
      simpa [nnDist, hs, distLe] using this

/-- `nnDist` is attained by some stored vector when the index is
non-empty. -/
theorem nnDist_mem {ix : FlatIndex} {q : Vec} (h : ix.vecs ≠ []) :
    ∃ p ∈ distPairs ix q, nnDist ix q = p.2 := by
  rcases hs : List.insertionSort distLe (distPairs ix q) with _ | ⟨hd, t⟩
  · exact absurd hs (insertionSort_distPairs_ne_nil h)
  · refine ⟨hd, ?_, by simp [nnDist, hs]⟩
    have : hd ∈ List.insertionSort distLe (distPairs ix q) := by
      rw [hs]; exact List.mem_cons_self hd t
    exact (List.mem_insertionSort distLe).mp this

theorem isDuplicate_of_near {ix : FlatIndex} {q : Vec} (h : ix.vecs ≠ [])
    (hd : nnDist ix q < (1 : ℚ) / 100) : isDuplicate ix q = true := by
  obtain ⟨i, hs, hi⟩ := @faissSearch_one ix q h
  have hne : i ≠ -1 := by omega
  rw [one_div] at hd
  simp [isDuplicate, hs, hne, hd]

theorem isDuplicate_of_far {ix : FlatIndex} {q : Vec}
    (hd : ¬ nnDist ix q < (1 : ℚ) / 100) : isDuplicate ix q = false := by
  rcases hs : List.insertionSort distLe (distPairs ix q) with _ | ⟨p, t⟩
  · simp [isDuplicate, faissSearch, hs]
  · have hnn : nnDist ix q = p.2 := by simp [nnDist, hs]
    rw [hnn, one_div] at hd
    simp only [isDuplicate, faissSearch, hs]
    simp only [List.take_succ_cons, List.take_zero]
    simp
    intro _
    exact le_of_not_lt hd

theorem screen_all_accepted {ix : FlatIndex} {l : List (Vec × MetaEntry)}
    (h : ∀ p ∈ l, isDuplicate ix p.1 = false) : screen ix l = (l, 0) := by
  induction l with
  | nil => rfl
  | cons p t ih =>
    have hp := h p (List.mem_cons_self p t)
    have ht := ih fun q hq => h q (List.mem_cons_of_mem p hq)
    simp [screen, hp, ht]

theorem screen_all_dup {ix : FlatIndex} {l : List (Vec × MetaEntry)}
    (h : ∀ p ∈ l, isDuplicate ix p.1 = true) : screen ix l = ([], l.length) := by
  induction l with
  | nil => rfl
  | cons p t ih =>
    have hp := h p (List.mem_cons_self p t)
    have ht := ih fun q hq => h q (List.mem_cons_of_mem p hq)
    simp [screen, hp, ht]

theorem regGet_cons (k k' : String) (v : RegEntry) (t : FileRegistry) :
    regGet ((k', v) :: t) k = if k' = k then some v else regGet t k := by
  by_cases h : k' = k <;> simp [regGet, List.find?, h]

theorem regGet_regSet_self (reg : FileRegistry) (k : String) (v : RegEntry) :
    regGet (regSet reg k v) k = some v := by
  induction reg with
  | nil => simp [regSet, regGet, List.find?]
  | cons p t ih =>
    obtain ⟨pk, pv⟩ := p
    by_cases h : pk = k
    · simp [regSet, h, regGet_cons]
    · simp [regSet, h, regGet_cons, ih]

theorem regGet_regSet_of_ne (reg : FileRegistry) {k k' : String} (v : RegEntry)
    (h : k' ≠ k) : regGet (regSet reg k' v) k = regGet reg k := by
  induction reg with
  | nil => simp [regSet, regGet_cons, h, regGet]
  | cons p t ih =>
    obtain ⟨pk, pv⟩ := p
    by_cases hp : pk = k'
    · subst hp
      simp [regSet, regGet_cons, h]
    · simp [regSet, hp, regGet_cons, ih]

theorem regSet_ne_nil (reg : FileRegistry) (k : String) (v : RegEntry) :
    regSet reg k v ≠ [] := by
  cases reg with
  | nil => simp [regSet]
  | cons p t =>
    by_cases h : p.1 = k <;> simp [regSet, h]

theorem regGet_saveRegTransform (reg : FileRegistry) (k : String)
    (hne : reg ≠ []) (h1 : k ≠ "_last_updated") (h2 : k ≠ "_file_count")
    (h3 : k ≠ "_vector_count") :
    regGet (saveRegTransform reg) k = regGet reg k := by
  have : reg.isEmpty = false := by simpa [List.isEmpty_iff] using hne
  simp [saveRegTransform, this,
    regGet_regSet_of_ne _ _ (Ne.symm h3), regGet_regSet_of_ne _ _ (Ne.symm h2),
    regGet_regSet_of_ne _ _ (Ne.symm h1)]

theorem regGet_setAggregates (reg : FileRegistry) (k : String) (n : ℕ)
    (h1 : k ≠ "_last_updated") (h2 : k ≠ "_file_count")
    (h3 : k ≠ "_vector_count") :
    regGet (setAggregates reg n) k = regGet reg k := by
  simp [setAggregates,
    regGet_regSet_of_ne _ _ (Ne.symm h3), regGet_regSet_of_ne _ _ (Ne.symm h2),
    regGet_regSet_of_ne _ _ (Ne.symm h1)]

theorem setAggregates_ne_nil (reg : FileRegistry) (n : ℕ) :
    setAggregates reg n ≠ [] := regSet_ne_nil _ _ _

theorem filterRecord_version_numbers (ids : List ℤ) (fn : String)
    (r : FileRecord) :
    (filterRecord ids fn r).1.versions.map (·.version) =
      r.versions.map (·.version) := by
  simp [filterRecord, List.map_map]
  exact fun a _ => rfl

theorem findVersion_ne_nil {vs : List Version} {n : ℕ} {cv : Version}
    (h : findVersion vs n = some cv) : vs ≠ [] := by
  intro hnil
  subst hnil
  simp [findVersion] at h

theorem recordEvent_loaded (dk : Disk) (a : Option FlatIndex) (b : Option MetaTable)
    (c : Option FileRegistry) (h : List Event) (ev : Event) :
    recordEvent ⟨dk, ⟨a, b, c, some h⟩⟩ ev =
      ⟨{ dk with historyFile := some (h ++ [ev]) }, ⟨a, b, c, some (h ++ [ev])⟩⟩ := rfl

theorem recordEvents_shape (dk : Disk) (a : Option FlatIndex) (b : Option MetaTable)
    (c : Option FileRegistry) (h : List Event) (evs : List Event) :
    ∃ hf h', recordEvents ⟨dk, ⟨a, b, c, some h⟩⟩ evs =
      ⟨⟨dk.indexFile, dk.metaFile, dk.registryFile, hf, dk.infoFile⟩,
       ⟨a, b, c, some h'⟩⟩ := by
  induction evs generalizing dk h with
  | nil => exact ⟨dk.historyFile, h, by cases dk; rfl⟩
  | cons ev t ih =>
    rw [recordEvents, recordEvent_loaded]
    exact ih _ _

theorem add_vectors_nonempty_all_accepted
    (dk : Disk) (ix : FlatIndex) (cm : MetaTable) (reg : FileRegistry)
    (hist : List Event) (vectors : List Vec) (metadata : List MetaEntry)
    (fp : String) (hne : ix.vecs ≠ []) (hvne : vectors ≠ [])
    (hlen : metadata.length = vectors.length)
    (hdim : ∀ v ∈ vectors, v.length = ix.d)
    (hfar : ∀ v ∈ vectors, isDuplicate ix v = false) :
    add_vectors ⟨dk, ⟨some ix, some cm, some reg, some hist⟩⟩ vectors metadata fp =
      commitAdd ⟨dk, ⟨some ix, some cm, some reg, some hist⟩⟩ ix cm reg vectors
        metadata (some 0) fp := by
  have hex : collection_exists ⟨dk, ⟨some ix, some cm, some reg, some hist⟩⟩ = true := by
    simp [collection_exists]
  have hnt : ix.ntotal ≠ 0 := by
    simpa [FlatIndex.ntotal, List.length_eq_zero] using hne
  have hall : vectors.all (fun v => decide (v.length = ix.d)) = true := by
    simpa [List.all_eq_true] using hdim
  have hzip : ∀ p ∈ vectors.zip metadata, isDuplicate ix p.1 = false := fun p hp =>
    hfar p.1 (List.of_mem_zip hp).1
  have hsc := @screen_all_accepted ix (vectors.zip metadata) hzip
  have hzne : (vectors.zip metadata).isEmpty = false := by
    cases vectors with
    | nil => exact absurd rfl hvne
    | cons v t =>
      cases metadata with
      | nil => simp at hlen
      | cons m mt => simp [List.zip]
  have hfst : (vectors.zip metadata).map Prod.fst = vectors :=
    List.map_fst_zip vectors metadata hlen.ge
  have hsnd : (vectors.zip metadata).map Prod.snd = metadata :=
    List.map_snd_zip vectors metadata hlen.le
  rw [add_vectors]
  simp [hex, loadAll, loadOpt_some, hsc, hzne, hfst, hsnd, hall, hnt, hlen]

theorem commitAdd_result (s : St) (ix : FlatIndex) (cm : MetaTable)
    (reg : FileRegistry) (av : List Vec) (am : List MetaEntry) (dups : Option ℕ)
    (fp : String) :
    (commitAdd s ix cm reg av am dups fp).2 = errAdd ∨
    (commitAdd s ix cm reg av am dups fp).2 =
      { ok := true, count := some av.length, duplicates := dups,
        file_name := some (basename fp) } := by
  rcases h : bumpRegistry reg (basename fp) fp ix.ntotal av.length with _ | ⟨reg1, ev⟩
  · left
    simp [commitAdd, h]
  · right
    simp [commitAdd, h]

theorem commitAdd_fresh (s : St) (ix : FlatIndex) (cm : MetaTable)
    (reg : FileRegistry) (av : List Vec) (am : List MetaEntry) (dups : Option ℕ)
    (fp : String) (hnone : regGet reg (basename fp) = none)
    (h1 : basename fp ≠ "_last_updated") (h2 : basename fp ≠ "_file_count")
    (h3 : basename fp ≠ "_vector_count") :
    (commitAdd s ix cm reg av am dups fp).2 =
      { ok := true, count := some av.length, duplicates := dups,
        file_name := some (basename fp) } ∧
    (commitAdd s ix cm reg av am dups fp).1.mem.index = some ⟨ix.d, ix.vecs ++ av⟩ ∧
    fileRecordView (commitAdd s ix cm reg av am dups fp).1 (basename fp) =
      some
        { file_name := basename fp
          file_path := fp
          vector_count := av.length
          versions := [⟨1, av.length, newVersionIds ix.ntotal av.length, nowTs⟩]
          current_version := 1 } := by
  refine ⟨?_, ?_, ?_⟩
  · simp [commitAdd, bumpRegistry, hnone, recordEvent]
  · simp [commitAdd, bumpRegistry, hnone, recordEvent]
  · simp only [commitAdd, bumpRegistry, hnone, recordEvent]
    simp only [fileRecordView, registryView, loadOpt_some, Option.getD_some]
    rw [regGet_saveRegTransform _ _ (setAggregates_ne_nil _ _) h1 h2 h3,
      regGet_setAggregates _ _ _ h1 h2 h3, regGet_regSet_self]

theorem commitAdd_update (s : St) (ix : FlatIndex) (cm : MetaTable)
    (reg : FileRegistry) (r : FileRecord) (av : List Vec) (am : List MetaEntry)
    (dups : Option ℕ) (fp : String)
    (hrec : regGet reg (basename fp) = some (.record r)) (hvs : r.versions ≠ [])
    (h1 : basename fp ≠ "_last_updated") (h2 : basename fp ≠ "_file_count")
    (h3 : basename fp ≠ "_vector_count") :
    (commitAdd s ix cm reg av am dups fp).2 =
      { ok := true, count := some av.length, duplicates := dups,
        file_name := some (basename fp) } ∧
    (commitAdd s ix cm reg av am dups fp).1.mem.index = some ⟨ix.d, ix.vecs ++ av⟩ ∧
    fileRecordView (commitAdd s ix cm reg av am dups fp).1 (basename fp) =
      some
        { r with
          vector_count := r.vector_count + av.length
          last_updated := nowTs
          versions := r.versions ++
            [⟨maxVersion r.versions + 1, av.length,
              newVersionIds ix.ntotal av.length, nowTs⟩]
          current_version := maxVersion r.versions + 1 } := by
  have hie : r.versions.isEmpty = false := by simpa [List.isEmpty_iff] using hvs
  refine ⟨?_, ?_, ?_⟩
  · simp [commitAdd, bumpRegistry, hrec, hie, recordEvent]
  · simp [commitAdd, bumpRegistry, hrec, hie, recordEvent]
  · simp only [commitAdd, bumpRegistry, hrec, hie, Bool.false_eq_true, if_false,
      recordEvent]
    simp only [fileRecordView, registryView, loadOpt_some, Option.getD_some]
    rw [regGet_saveRegTransform _ _ (setAggregates_ne_nil _ _) h1 h2 h3,
      regGet_setAggregates _ _ _ h1 h2 h3, regGet_regSet_self]

/-- C3: on a loaded collection with a non-empty index, a candidate vector
whose nearest neighbour is within the dedup threshold is classified as a
duplicate and discarded: the call succeeds with `count = 0` and
`duplicates = 1`, and neither the index nor the metadata nor the registry —
in memory or on disk — changes, so the vector receives no id.  `nnDist` is
the METRIC_L2 value FAISS reports (squared Euclidean distance); the
hypothesis `nnDist < 0.01` is weaker than the claim's "L2 distance below
0.01" (which implies a squared distance below 0.0001), so the theorem covers
the claim under either reading of "distance". -/
theorem c3_dedup_discards_near_duplicates
    (dk : Disk) (ix : FlatIndex) (cm : MetaTable) (reg : FileRegistry)
    (hist : List Event) (v : Vec) (m : MetaEntry) (fp : String)
    (hne : ix.vecs ≠ []) (hdim : v.length = ix.d)
    (hnear : nnDist ix v < (1 : ℚ) / 100) :
    (add_vectors ⟨dk, ⟨some ix, some cm, some reg, some hist⟩⟩ [v] [m] fp).2 =
      { ok := true, count := some 0, duplicates := some 1,
        file_name := some (basename fp) } ∧
    (add_vectors ⟨dk, ⟨some ix, some cm, some reg, some hist⟩⟩ [v] [m] fp).1.mem.index
      = some ix ∧
    (add_vectors ⟨dk, ⟨some ix, some cm, some reg, some hist⟩⟩ [v] [m] fp).1.mem.meta
      = some cm ∧
    (add_vectors ⟨dk, ⟨some ix, some cm, some reg, some hist⟩⟩ [v] [m] fp).1.mem.registry
      = some reg ∧
    (add_vectors ⟨dk, ⟨some ix, some cm, some reg, some hist⟩⟩ [v] [m] fp).1.disk.indexFile
      = dk.indexFile ∧
    (add_vectors ⟨dk, ⟨some ix, some cm, some reg, some hist⟩⟩ [v] [m] fp).1.disk.metaFile
      = dk.metaFile ∧
    (add_vectors ⟨dk, ⟨some ix, some cm, some reg, some hist⟩⟩ [v] [m] fp).1.disk.registryFile
      = dk.registryFile := by
  have hdup := isDuplicate_of_near hne hnear
  have hex : collection_exists ⟨dk, ⟨some ix, some cm, some reg, some hist⟩⟩ = true := by
    simp [collection_exists]
  have hnt : ix.ntotal ≠ 0 := by
    simpa [FlatIndex.ntotal, List.length_eq_zero] using hne
  have hsc : screen ix [(v, m)] = ([], 1) := by
    have h := @screen_all_dup ix [(v, m)] (by
      intro p hp
      simp only [List.mem_singleton] at hp
      subst hp
      exact hdup)
    simpa using h
  rw [add_vectors]
  simp [hex, loadAll, hnt, hdim, hsc, recordEvent]

/-- Witness for C3: a collection holding exactly `[1,0,0,0]`; a second call
inserting the same vector reports `count = 0`, `duplicates = 1` and leaves
the index unchanged. -/
theorem c3_witness_second_insert_reports_duplicate :
    (add_vectors ⟨{}, ⟨some ⟨4, [[1,0,0,0]]⟩, some (.list [mkMeta "t"]), some [], some []⟩⟩
        [[1,0,0,0]] [mkMeta "t"] "docs/a.txt").2 =
      { ok := true, count := some 0, duplicates := some 1, file_name := some "a.txt" } ∧
    (add_vectors ⟨{}, ⟨some ⟨4, [[1,0,0,0]]⟩, some (.list [mkMeta "t"]), some [], some []⟩⟩
        [[1,0,0,0]] [mkMeta "t"] "docs/a.txt").1.mem.index = some ⟨4, [[1,0,0,0]]⟩ := by
  have h := c3_dedup_discards_near_duplicates {} ⟨4, [[1,0,0,0]]⟩
    (.list [mkMeta "t"]) [] [] [1,0,0,0] (mkMeta "t") "docs/a.txt"
    (by decide) (by decide) (by decide)
  refine ⟨?_, h.2.1⟩
  rw [h.1]
  decide

/-- C10: the dedup loop searches the index as it stood before the batch —
accepted vectors are appended only after every candidate has been screened
(faiss_connect.py:1027-1058) — so two identical candidates in one batch,
each far from everything already stored, are both accepted: the call reports
`count = 2`, `duplicates = 0`, both copies are appended to the index, and
the new version assigns them the consecutive ids `ntotal` and
`ntotal + 1`. -/
theorem c10_batch_dedup_screens_against_prebatch_index
    (dk : Disk) (ix : FlatIndex) (cm : MetaTable) (reg : FileRegistry)
    (hist : List Event) (v : Vec) (m1 m2 : MetaEntry) (fp : String)
    (hne : ix.vecs ≠ []) (hdim : v.length = ix.d)
    (hfar : ¬ nnDist ix v < (1 : ℚ) / 100)
    (hfresh : regGet reg (basename fp) = none)
    (h1 : basename fp ≠ "_last_updated") (h2 : basename fp ≠ "_file_count")
    (h3 : basename fp ≠ "_vector_count") :
    (add_vectors ⟨dk, ⟨some ix, some cm, some reg, some hist⟩⟩ [v, v] [m1, m2] fp).2 =
      { ok := true, count := some 2, duplicates := some 0,
        file_name := some (basename fp) } ∧
    (add_vectors ⟨dk, ⟨some ix, some cm, some reg, some hist⟩⟩ [v, v] [m1, m2] fp).1.mem.index
      = some ⟨ix.d, ix.vecs ++ [v, v]⟩ ∧
    fileVersionIds
        (add_vectors ⟨dk, ⟨some ix, some cm, some reg, some hist⟩⟩ [v, v] [m1, m2] fp).1
        (basename fp)
      = [[Int.ofNat ix.ntotal, Int.ofNat (ix.ntotal + 1)]] := by
  have hdup := isDuplicate_of_far hfar
  have hred := add_vectors_nonempty_all_accepted dk ix cm reg hist [v, v] [m1, m2] fp
    hne (by simp) (by simp)
    (by intro u hu; simp only [List.mem_cons, List.not_mem_nil, or_false] at hu
        rcases hu with rfl | rfl <;> exact hdim)
    (by intro u hu; simp only [List.mem_cons, List.not_mem_nil, or_false] at hu
        rcases hu with rfl | rfl <;> exact hdup)
  rw [hred]
  obtain ⟨hr, hi, hf⟩ := commitAdd_fresh
    ⟨dk, ⟨some ix, some cm, some reg, some hist⟩⟩ ix cm reg [v, v] [m1, m2]
    (some 0) fp hfresh h1 h2 h3
  refine ⟨by rw [hr]; rfl, hi, ?_⟩
  simp only [fileVersionIds, hf]
  simp [newVersionIds, List.range_succ]

/-- Witness for C10: a one-vector collection receives a batch holding the
same new vector twice; both copies are accepted with ids 1 and 2. -/
theorem c10_witness :
    (add_vectors ⟨{}, ⟨some ⟨4, [[1,0,0,0]]⟩, some (.list [mkMeta "t"]), some [], some []⟩⟩
        [[0,1,0,0], [0,1,0,0]] [mkMeta "u1", mkMeta "u2"] "docs/b.txt").2 =
      { ok := true, count := some 2, duplicates := some 0, file_name := some "b.txt" } ∧
    (add_vectors ⟨{}, ⟨some ⟨4, [[1,0,0,0]]⟩, some (.list [mkMeta "t"]), some [], some []⟩⟩
        [[0,1,0,0], [0,1,0,0]] [mkMeta "u1", mkMeta "u2"] "docs/b.txt").1.mem.index =
      some ⟨4, [[1,0,0,0], [0,1,0,0], [0,1,0,0]]⟩ := by
  have h := c10_batch_dedup_screens_against_prebatch_index {} ⟨4, [[1,0,0,0]]⟩
    (.list [mkMeta "t"]) [] [] [0,1,0,0] (mkMeta "u1") (mkMeta "u2") "docs/b.txt"
    (by decide) (by decide) (by decide) (by decide) (by decide) (by decide) (by decide)
  refine ⟨?_, ?_⟩
  · rw [h.1]
    decide
  · rw [h.2.1]
    decide

theorem add_vectors_empty_path (dk : Disk) (ix : FlatIndex) (cm : MetaTable)
    (reg : FileRegistry) (hist : List Event) (vectors : List Vec)
    (metadata : List MetaEntry) (fp : String) (h0 : ix.ntotal = 0)
    (hlen : metadata.length = vectors.length) (hvne : vectors ≠ [])
    (hdim : ∀ v ∈ vectors, v.length = ix.d) :
    add_vectors ⟨dk, ⟨some ix, some cm, some reg, some hist⟩⟩ vectors metadata fp =
      commitAdd ⟨dk, ⟨some ix, some cm, some reg, some hist⟩⟩ ix cm reg vectors
        metadata none fp := by
  have hex : collection_exists ⟨dk, ⟨some ix, some cm, some reg, some hist⟩⟩ = true := by
    simp [collection_exists]
  have hall : vectors.all (fun v => decide (v.length = ix.d)) = true := by
    simpa [List.all_eq_true] using hdim
  have hie : vectors.isEmpty = false := by simpa [List.isEmpty_iff] using hvne
  rw [add_vectors]
  simp [hex, loadAll, h0, hall, hie, hlen]

theorem add_vectors_nonempty_path (dk : Disk) (ix : FlatIndex) (cm : MetaTable)
    (reg : FileRegistry) (hist : List Event) (vectors : List Vec)
    (metadata : List MetaEntry) (fp : String) (h0 : ix.ntotal ≠ 0)
    (hlen : metadata.length = vectors.length)
    (hdim : ∀ v ∈ vectors, v.length = ix.d)
    (hscr : (screen ix (vectors.zip metadata)).1 ≠ []) :
    add_vectors ⟨dk, ⟨some ix, some cm, some reg, some hist⟩⟩ vectors metadata fp =
      commitAdd ⟨dk, ⟨some ix, some cm, some reg, some hist⟩⟩ ix cm reg
        ((screen ix (vectors.zip metadata)).1.map (·.1))
        ((screen ix (vectors.zip metadata)).1.map (·.2))
        (some (screen ix (vectors.zip metadata)).2) fp := by
  have hex : collection_exists ⟨dk, ⟨some ix, some cm, some reg, some hist⟩⟩ = true := by
    simp [collection_exists]
  have hall : vectors.all (fun v => decide (v.length = ix.d)) = true := by
    simpa [List.all_eq_true] using hdim
  have hie : (screen ix (vectors.zip metadata)).1.isEmpty = false := by
    simpa [List.isEmpty_iff] using hscr
  rw [add_vectors]
  simp [hex, loadAll, h0, hall, hie, hlen]

theorem add_vectors_all_duplicates (dk : Disk) (ix : FlatIndex) (cm : MetaTable)
    (reg : FileRegistry) (hist : List Event) (vectors : List Vec)
    (metadata : List MetaEntry) (fp : String) (h0 : ix.ntotal ≠ 0)
    (hlen : metadata.length = vectors.length)
    (hdim : ∀ v ∈ vectors, v.length = ix.d)
    (hscr : (screen ix (vectors.zip metadata)).1 = []) :
    (add_vectors ⟨dk, ⟨some ix, some cm, some reg, some hist⟩⟩ vectors metadata fp).2 =
      { ok := true, count := some 0,
        duplicates := some (screen ix (vectors.zip metadata)).2,
        file_name := some (basename fp) } := by
  have hex : collection_exists ⟨dk, ⟨some ix, some cm, some reg, some hist⟩⟩ = true := by
    simp [collection_exists]
  have hall : vectors.all (fun v => decide (v.length = ix.d)) = true := by
    simpa [List.all_eq_true] using hdim
  rw [add_vectors]
  simp [hex, loadAll, h0, hall, hscr, hlen, recordEvent]

/-- C4 (amended): with the collection loaded, a length mismatch between
vectors and metadata makes `add_vectors` fail with the error dict and leave
the state untouched; every successful call returns `count` and `file_name`,
and calls screened by the non-empty-index path also return `duplicates` —
the empty-index success path omits that key (the amendment;
see `c4_counterexample_empty_path_omits_duplicates`). -/
theorem c4_addVectors_precondition_and_result_fields
    (dk : Disk) (ix : FlatIndex) (cm : MetaTable) (reg : FileRegistry)
    (hist : List Event) (vectors : List Vec) (metadata : List MetaEntry)
    (fp : String) :
    (metadata.length ≠ vectors.length →
      add_vectors ⟨dk, ⟨some ix, some cm, some reg, some hist⟩⟩ vectors metadata fp =
        (⟨dk, ⟨some ix, some cm, some reg, some hist⟩⟩, errAdd)) ∧
    ((add_vectors ⟨dk, ⟨some ix, some cm, some reg, some hist⟩⟩ vectors metadata fp).2.ok
        = true →
      (add_vectors ⟨dk, ⟨some ix, some cm, some reg, some hist⟩⟩ vectors metadata
          fp).2.count.isSome ∧
      (add_vectors ⟨dk, ⟨some ix, some cm, some reg, some hist⟩⟩ vectors metadata
          fp).2.file_name.isSome ∧
      (ix.ntotal ≠ 0 →
        (add_vectors ⟨dk, ⟨some ix, some cm, some reg, some hist⟩⟩ vectors metadata
          fp).2.duplicates.isSome)) := by
  have hex : collection_exists ⟨dk, ⟨some ix, some cm, some reg, some hist⟩⟩ = true := by
    simp [collection_exists]
  have hmis : metadata.length ≠ vectors.length →
      add_vectors ⟨dk, ⟨some ix, some cm, some reg, some hist⟩⟩ vectors metadata fp =
        (⟨dk, ⟨some ix, some cm, some reg, some hist⟩⟩, errAdd) := by
    intro hL
    rw [add_vectors]
    simp [hex, loadAll, hL]
  refine ⟨hmis, ?_⟩
  intro hok
  by_cases hL : metadata.length = vectors.length
  · by_cases h0 : ix.ntotal = 0
    · by_cases hvne : vectors = []
      · rw [add_vectors] at hok
        simp [hex, loadAll, hL, h0, hvne, recordEvent, errAdd] at hok
      · by_cases hall : ∀ v ∈ vectors, v.length = ix.d
        · rw [add_vectors_empty_path dk ix cm reg hist vectors metadata fp h0 hL
            hvne hall] at hok ⊢
          rcases commitAdd_result ⟨dk, ⟨some ix, some cm, some reg, some hist⟩⟩
              ix cm reg vectors metadata none fp with h | h
          · rw [h] at hok
            simp [errAdd] at hok
          · rw [h]
            exact ⟨rfl, rfl, fun hn => absurd h0 hn⟩
        · have hb : vectors.all (fun v => decide (v.length = ix.d)) = false := by
            rw [Bool.eq_false_iff]
            intro hc
            exact hall (by simpa [List.all_eq_true] using hc)
          rw [add_vectors] at hok
          simp [hex, loadAll, hL, h0, hb, recordEvent, errAdd,
            List.isEmpty_iff, hvne] at hok
    · by_cases hall : ∀ v ∈ vectors, v.length = ix.d
      · by_cases hscr : (screen ix (vectors.zip metadata)).1 = []
        · rw [add_vectors_all_duplicates dk ix cm reg hist vectors metadata fp h0 hL
            hall hscr] at hok ⊢
          exact ⟨rfl, rfl, fun _ => rfl⟩
        · rw [add_vectors_nonempty_path dk ix cm reg hist vectors metadata fp h0 hL
            hall hscr] at hok ⊢
          rcases commitAdd_result ⟨dk, ⟨some ix, some cm, some reg, some hist⟩⟩
              ix cm reg ((screen ix (vectors.zip metadata)).1.map (·.1))
              ((screen ix (vectors.zip metadata)).1.map (·.2))
              (some (screen ix (vectors.zip metadata)).2) fp with h | h
          · rw [h] at hok
            simp [errAdd] at hok
          · rw [h]
            exact ⟨rfl, rfl, fun _ => rfl⟩
      · have hb : vectors.all (fun v => decide (v.length = ix.d)) = false := by
          rw [Bool.eq_false_iff]
          intro hc
          exact hall (by simpa [List.all_eq_true] using hc)
        rw [add_vectors] at hok
        simp [hex, loadAll, hL, h0, hb, recordEvent, errAdd] at hok
  · rw [hmis hL] at hok
    simp [errAdd] at hok

/-- Witness for C4: on a loaded one-vector collection, a call with one
vector and no metadata entries fails without mutating anything, and a
successful non-duplicate insert returns all three result fields. -/
theorem c4_witness :
    (add_vectors ⟨{}, ⟨some ⟨4, [[1,0,0,0]]⟩, some (.list [mkMeta "t"]), some [], some []⟩⟩
        [[0,1,0,0]] [] "docs/a.txt" =
      (⟨{}, ⟨some ⟨4, [[1,0,0,0]]⟩, some (.list [mkMeta "t"]), some [], some []⟩⟩, errAdd)) ∧
    ((add_vectors ⟨{}, ⟨some ⟨4, [[1,0,0,0]]⟩, some (.list [mkMeta "t"]), some [], some []⟩⟩
        [[0,1,0,0]] [mkMeta "w"] "docs/a.txt").2.count.isSome ∧
      (add_vectors ⟨{}, ⟨some ⟨4, [[1,0,0,0]]⟩, some (.list [mkMeta "t"]), some [], some []⟩⟩
        [[0,1,0,0]] [mkMeta "w"] "docs/a.txt").2.file_name.isSome ∧
      (add_vectors ⟨{}, ⟨some ⟨4, [[1,0,0,0]]⟩, some (.list [mkMeta "t"]), some [], some []⟩⟩
        [[0,1,0,0]] [mkMeta "w"] "docs/a.txt").2.duplicates.isSome) := by
  constructor
  · exact (c4_addVectors_precondition_and_result_fields {} ⟨4, [[1,0,0,0]]⟩
      (.list [mkMeta "t"]) [] [] [[0,1,0,0]] [] "docs/a.txt").1 (by decide)
  · have h := (c4_addVectors_precondition_and_result_fields {} ⟨4, [[1,0,0,0]]⟩
      (.list [mkMeta "t"]) [] [] [[0,1,0,0]] [mkMeta "w"] "docs/a.txt").2 (by decide)
    exact ⟨h.1, h.2.1, h.2.2 (by decide)⟩

theorem faissSearch_length (ix : FlatIndex) (q : Vec) (k : ℕ) :
    (faissSearch ix q k).length = k := by
  simp [faissSearch, List.length_take]

theorem mem_faissSearch_dist_nonneg {ix : FlatIndex} {q : Vec} {k : ℕ}
    {p : ℤ × ℚ} (hp : p ∈ faissSearch ix q k) : 0 ≤ p.2 := by
  simp only [faissSearch, List.mem_append] at hp
  rcases hp with h | h
  · have h1 : p ∈ List.insertionSort distLe (distPairs ix q) :=
      List.take_subset _ _ h
    exact (mem_distPairs ((List.mem_insertionSort distLe).mp h1)).2
  · have := List.eq_of_mem_replicate h
    simp [this]

/-- C5: on a loaded collection with a non-empty index and a query of the
right dimension, `search` returns at most `min(topK, ntotal)` results, drops
every sentinel `-1` id, and its three arrays are parallel.  The similarity
scores the Python code hands back are `exp(-d)` of the returned distances:
each lies in `(0, 1]` — the distances are sums of squares, hence
non-negative — and the map is strictly decreasing in the distance. -/
theorem c5_search_shape_and_scores (s : St) (ix : FlatIndex) (cm : MetaTable)
    (q : Vec) (k : ℕ)
    (hix : loadOpt s.mem.index s.disk.indexFile = some ix)
    (hcm : loadOpt s.mem.meta (loadOpt s.disk.metaFile (some (.dict []))) = some cm)
    (hne : ix.vecs ≠ []) (hq : q.length = ix.d) :
    (search s q k).ids.length ≤ min k ix.ntotal ∧
    (search s q k).dists.length = (search s q k).ids.length ∧
    (search s q k).metas.length = (search s q k).ids.length ∧
    (∀ i ∈ (search s q k).ids, i ≠ -1) ∧
    (∀ dd ∈ (search s q k).dists,
      0 < Real.exp (-(dd : ℝ)) ∧ Real.exp (-(dd : ℝ)) ≤ 1) ∧
    (∀ d1 d2 : ℚ, d1 < d2 →
      Real.exp (-((d2 : ℚ) : ℝ)) < Real.exp (-((d1 : ℚ) : ℝ))) := by
  have hnt : ix.ntotal ≠ 0 := by
    simpa [FlatIndex.ntotal, List.length_eq_zero] using hne
  have hmono : ∀ d1 d2 : ℚ, d1 < d2 →
      Real.exp (-((d2 : ℚ) : ℝ)) < Real.exp (-((d1 : ℚ) : ℝ)) := by
    intro d1 d2 h
    exact Real.exp_lt_exp.mpr (neg_lt_neg (by exact_mod_cast h))
  by_cases hv : ((faissSearch ix q (min k ix.ntotal)).filter
      fun p => decide (p.1 ≠ -1)).isEmpty
  · have hr : search s q k = emptySearch := by
      rw [search]
      simp only [hix, hcm]
      rw [if_neg hnt, if_neg (not_not_intro hq), if_pos hv]
    rw [hr]
    exact ⟨by simp [emptySearch], by simp [emptySearch], by simp [emptySearch],
      by simp [emptySearch], by simp [emptySearch], hmono⟩
  · have hr : search s q k =
        ⟨((faissSearch ix q (min k ix.ntotal)).filter fun p => decide (p.1 ≠ -1)).map (·.1),
         ((faissSearch ix q (min k ix.ntotal)).filter fun p => decide (p.1 ≠ -1)).map (·.2),
         ((faissSearch ix q (min k ix.ntotal)).filter fun p => decide (p.1 ≠ -1)).map
           (fun p => metaLookup cm p.1)⟩ := by
      rw [search]
      simp only [hix, hcm]
      rw [if_neg hnt, if_neg (not_not_intro hq), if_neg hv]
    rw [hr]
    refine ⟨?_, by simp, by simp, ?_, ?_, hmono⟩
    · have h1 := List.length_filter_le (fun p : ℤ × ℚ => decide (p.1 ≠ -1))
        (faissSearch ix q (min k ix.ntotal))
      simpa [faissSearch_length] using h1
    · intro i hi
      simp only [List.mem_map, List.mem_filter, decide_eq_true_eq] at hi
      obtain ⟨p, ⟨_, hp⟩, rfl⟩ := hi
      exact hp
    · intro dd hdd
      simp only [List.mem_map, List.mem_filter, decide_eq_true_eq] at hdd
      obtain ⟨p, ⟨hp, _⟩, rfl⟩ := hdd
      have h0 : (0 : ℚ) ≤ p.2 := mem_faissSearch_dist_nonneg hp
      exact ⟨Real.exp_pos _,
        Real.exp_le_one_iff.mpr (neg_nonpos.mpr (by exact_mod_cast h0))⟩

/-- Witness for C5: the spec's deterministic search example — three unit
vectors, query `[0,1,0,0]`, `topK = 1`, whose single hit is id 1 at distance
0. -/
theorem c5_witness :
    (search threeVec [0,1,0,0] 1).ids.length ≤ min 1 3 ∧
    (search threeVec [0,1,0,0] 1).dists.length =
      (search threeVec [0,1,0,0] 1).ids.length ∧
    (0 < Real.exp (-((0 : ℚ) : ℝ)) ∧ Real.exp (-((0 : ℚ) : ℝ)) ≤ 1) ∧
    Real.exp (-((1 : ℚ) : ℝ)) < Real.exp (-((0 : ℚ) : ℝ)) := by
  have h := c5_search_shape_and_scores threeVec
    ⟨4, [[1,0,0,0], [0,1,0,0], [0,0,1,0]]⟩
    (.list [mkMeta "m0", mkMeta "m1", mkMeta "m2"])
    [0,1,0,0] 1 (by decide) (by decide) (by decide) (by decide)
  exact ⟨h.1, h.2.1, h.2.2.2.2.1 0 (by decide), h.2.2.2.2.2 0 1 (by norm_num)⟩

/-- C6 (amended): a search whose query length differs from the index
dimension returns the plain empty triple `([], [], [])` to the caller — the
same value as a search with no results — with the expected and actual
dimensions reported only to the log, not through any returned
`DimensionMismatch` error (see
`c6_counterexample_dimension_mismatch_returns_empty`). -/
theorem c6_search_dimension_mismatch_amended (s : St) (ix : FlatIndex)
    (cm : MetaTable) (q : Vec) (k : ℕ)
    (hix : loadOpt s.mem.index s.disk.indexFile = some ix)
    (hcm : loadOpt s.mem.meta (loadOpt s.disk.metaFile (some (.dict []))) = some cm)
    (hne : ix.vecs ≠ []) (hq : q.length ≠ ix.d) :
    search s q k = emptySearch := by
  have hnt : ix.ntotal ≠ 0 := by
    simpa [FlatIndex.ntotal, List.length_eq_zero] using hne
  rw [search]
  simp only [hix, hcm]
  rw [if_neg hnt, if_pos hq]

/-- Witness for C6: a 3-component query against the dimension-4 three-vector
collection comes back as the empty triple. -/
theorem c6_witness : search threeVec [1, 0, 0] 5 = emptySearch :=
  c6_search_dimension_mismatch_amended threeVec
    ⟨4, [[1,0,0,0], [0,1,0,0], [0,0,1,0]]⟩
    (.list [mkMeta "m0", mkMeta "m1", mkMeta "m2"])
    [1, 0, 0] 5 (by decide) (by decide) (by decide) (by decide)

/-- C8: `create_collection` refuses to run when the collection's index
artifact already exists (returning the caller's state unchanged), and on a
clean disk every injected write failure — index, metadata, registry,
history or collection-info — yields `False` with no artifact of the
collection left behind: each failure branch removes everything written
before it (faiss_connect.py:188-250). -/
theorem c8_create_rollback_leaves_no_partial_collection (s : St) (dim : ℕ)
    (fail : CreateFail) :
    (s.disk.indexFile.isSome → create_collection s dim "Flat" fail = (s, false)) ∧
    (s.disk = {} → fail ≠ CreateFail.none →
      (create_collection s dim "Flat" fail).2 = false ∧
      (create_collection s dim "Flat" fail).1.disk = {}) := by
  constructor
  · intro h
    rw [create_collection.eq_def]
    simp [h]
  · intro hclean hf
    cases fail with
    | none => exact absurd rfl hf
    | indexW => exact ⟨by simp [create_collection, hclean], by simp [create_collection, hclean]⟩
    | metaW => exact ⟨by simp [create_collection, hclean], by simp [create_collection, hclean]⟩
    | registryW => exact ⟨by simp [create_collection, hclean], by simp [create_collection, hclean]⟩
    | historyW => exact ⟨by simp [create_collection, hclean], by simp [create_collection, hclean]⟩
    | infoW => exact ⟨by simp [create_collection, hclean], by simp [create_collection, hclean]⟩

/-- Witness for C8: creating over the existing `fresh4` artifacts fails
without touching them, and a metadata-write failure during a clean create
leaves an empty disk. -/
theorem c8_witness :
    create_collection fresh4 4 "Flat" CreateFail.none = (fresh4, false) ∧
    ((create_collection cleanSt 4 "Flat" CreateFail.metaW).2 = false ∧
      (create_collection cleanSt 4 "Flat" CreateFail.metaW).1.disk = {}) :=
  ⟨(c8_create_rollback_leaves_no_partial_collection fresh4 4 CreateFail.none).1
      (by decide),
   (c8_create_rollback_leaves_no_partial_collection cleanSt 4 CreateFail.metaW).2
      (by decide) (by decide)⟩

theorem delete_vectors_list_crash (dk : Disk) (ix : FlatIndex)
    (ms : List MetaEntry) (reg : FileRegistry) (hist : List Event) (ids : List ℤ)
    (hnt : ix.ntotal ≠ 0)
    (hret : (retainedIds ix.ntotal ids).isEmpty = false) :
    delete_vectors ⟨dk, ⟨some ix, some (.list ms), some reg, some hist⟩⟩ ids =
      (⟨dk, ⟨some ix, some (.list ms), some reg, some hist⟩⟩, false) := by
  have hex : collection_exists
      ⟨dk, ⟨some ix, some (.list ms), some reg, some hist⟩⟩ = true := by
    simp [collection_exists]
  have hco : deleteCrashesEarly (.list ms) ix.ntotal ids = true := by
    simp [deleteCrashesEarly, hret]
  rw [delete_vectors]
  simp [hex, loadAll, hnt, hco]

theorem delete_vectors_to_commit (dk : Disk) (ix : FlatIndex) (cm : MetaTable)
    (reg : FileRegistry) (hist : List Event) (ids : List ℤ)
    (hnt : ix.ntotal ≠ 0) (hco : deleteCrashesEarly cm ix.ntotal ids = false) :
    delete_vectors ⟨dk, ⟨some ix, some cm, some reg, some hist⟩⟩ ids =
      deleteCommit ⟨dk, ⟨some ix, some cm, some reg, some hist⟩⟩ ix cm ids := by
  have hex : collection_exists
      ⟨dk, ⟨some ix, some cm, some reg, some hist⟩⟩ = true := by
    simp [collection_exists]
  rw [delete_vectors]
  simp [hex, loadAll, hnt, hco]

theorem deleteCommit_stops_on_aggregate (dk : Disk) (ix : FlatIndex)
    (cm : MetaTable) (hist : List Event) (ids : List ℤ) (fn : String)
    (r : FileRecord) (k2 : String) (e2 : RegEntry) (rest : FileRegistry)
    (he2 : e2.isRecord = false) :
    ∃ dk' h',
      deleteCommit ⟨dk, ⟨some ix, some cm,
          some ((fn, RegEntry.record r) :: (k2, e2) :: rest), some hist⟩⟩ ix cm ids =
        (⟨dk', ⟨some ix, some cm,
          some ((fn, RegEntry.record (filterRecord ids fn r).1) :: (k2, e2) :: rest),
          some h'⟩⟩, false) := by
  have hpr : processRegDelete ids ((fn, RegEntry.record r) :: (k2, e2) :: rest) =
      ((fn, RegEntry.record (filterRecord ids fn r).1) :: (k2, e2) :: rest,
       (filterRecord ids fn r).2, false) := by
    cases e2 with
    | record r2 => simp [RegEntry.isRecord] at he2
    | strVal z => simp [processRegDelete]
    | natVal n => simp [processRegDelete]
  obtain ⟨hf, h', heq⟩ := recordEvents_shape dk (some ix) (some cm)
    (some ((fn, RegEntry.record (filterRecord ids fn r).1) :: (k2, e2) :: rest))
    hist (filterRecord ids fn r).2
  refine ⟨⟨dk.indexFile, dk.metaFile, dk.registryFile, hf, dk.infoFile⟩, h', ?_⟩
  rw [deleteCommit]
  simp only [Option.getD_some, hpr, Bool.not_false, if_true, ite_true, ite_false,
    Bool.false_eq_true, not_false_iff]
  rw [heq]

theorem delete_vectors_list_retained_empty (dk : Disk) (ix : FlatIndex)
    (ms : List MetaEntry) (hist : List Event) (ids : List ℤ) (fn : String)
    (r : FileRecord) (k2 : String) (e2 : RegEntry) (rest : FileRegistry)
    (hnt : ix.ntotal ≠ 0) (he2 : e2.isRecord = false)
    (hret : (retainedIds ix.ntotal ids).isEmpty = true) :
    ∃ dk' h',
      delete_vectors
          ⟨dk, ⟨some ix, some (.list ms),
            some ((fn, RegEntry.record r) :: (k2, e2) :: rest), some hist⟩⟩ ids =
        (⟨dk', ⟨some ix, some (.list ms),
          some ((fn, RegEntry.record (filterRecord ids fn r).1) :: (k2, e2) :: rest),
          some h'⟩⟩, false) := by
  have hco : deleteCrashesEarly (.list ms) ix.ntotal ids = false := by
    simp [deleteCrashesEarly, hret]
  rw [delete_vectors_to_commit dk ix (.list ms)
    ((fn, RegEntry.record r) :: (k2, e2) :: rest) hist ids hnt hco]
  exact deleteCommit_stops_on_aggregate dk ix (.list ms) hist ids fn r k2 e2 rest he2

theorem add_to_existing_record_spec (dk2 : Disk) (ix : FlatIndex)
    (cm2 : MetaTable) (hist2 : List Event) (rA : FileRecord) (k2 : String)
    (e2 : RegEntry) (rest : FileRegistry) (vectors : List Vec)
    (metadata : List MetaEntry) (fp : String)
    (hne : ix.vecs ≠ []) (hvne : vectors ≠ [])
    (hlen : metadata.length = vectors.length)
    (hdim : ∀ v ∈ vectors, v.length = ix.d)
    (hdup : ∀ v ∈ vectors, isDuplicate ix v = false)
    (hvsA : rA.versions ≠ [])
    (h1 : basename fp ≠ "_last_updated") (h2 : basename fp ≠ "_file_count")
    (h3 : basename fp ≠ "_vector_count") :
    (add_vectors ⟨dk2, ⟨some ix, some cm2,
        some ((basename fp, RegEntry.record rA) :: (k2, e2) :: rest), some hist2⟩⟩
        vectors metadata fp).2 =
      { ok := true, count := some vectors.length, duplicates := some 0,
        file_name := some (basename fp) } ∧
    (add_vectors ⟨dk2, ⟨some ix, some cm2,
        some ((basename fp, RegEntry.record rA) :: (k2, e2) :: rest), some hist2⟩⟩
        vectors metadata fp).1.mem.index = some ⟨ix.d, ix.vecs ++ vectors⟩ ∧
    fileVersionNumbers
        (add_vectors ⟨dk2, ⟨some ix, some cm2,
          some ((basename fp, RegEntry.record rA) :: (k2, e2) :: rest), some hist2⟩⟩
          vectors metadata fp).1 (basename fp) =
      rA.versions.map (·.version) ++ [maxVersion rA.versions + 1] ∧
    fileCurrentVersion
        (add_vectors ⟨dk2, ⟨some ix, some cm2,
          some ((basename fp, RegEntry.record rA) :: (k2, e2) :: rest), some hist2⟩⟩
          vectors metadata fp).1 (basename fp) =
      some (maxVersion rA.versions + 1) := by
  have hred := add_vectors_nonempty_all_accepted dk2 ix cm2
    ((basename fp, RegEntry.record rA) :: (k2, e2) :: rest) hist2 vectors metadata fp
    hne hvne hlen hdim hdup
  obtain ⟨hr, hi, hf⟩ := commitAdd_update
    ⟨dk2, ⟨some ix, some cm2,
      some ((basename fp, RegEntry.record rA) :: (k2, e2) :: rest), some hist2⟩⟩
    ix cm2 ((basename fp, RegEntry.record rA) :: (k2, e2) :: rest) rA vectors metadata
    (some 0) fp (by simp [regGet_cons]) hvsA h1 h2 h3
  refine ⟨by rw [hred, hr], by rw [hred, hi], ?_, ?_⟩
  · rw [hred]
    simp [fileVersionNumbers, hf]
  · rw [hred]
    simp [fileCurrentVersion, hf]

/-- C9 (amended): `replace_file` on a file that already has a record with a
resolvable current version first calls `delete_vectors` on that version's
ids, but the delete always fails — either before any mutation (some id
retained: the list metadata crashes the rebuild) or after zeroing the
current version's `vector_ids` in the File Record (no id retained: the
registry loop stops on the first aggregate key) — and `replace_file`
ignores the failure, so the old vectors remain in the index.  The new
vectors are then added as a fresh version numbered one above the maximum:
afterwards the record's version-number list is the old one plus the new
number, `current_version` equals the new number, and the index holds the old
vectors followed by the new ones. -/
theorem c9_replaceFile_bumps_version_amended
    (dk : Disk) (ix : FlatIndex) (ms : List MetaEntry) (hist : List Event)
    (r : FileRecord) (k2 : String) (e2 : RegEntry) (rest : FileRegistry)
    (cv : Version) (vectors : List Vec) (metadata : List MetaEntry) (fp : String)
    (he2 : e2.isRecord = false)
    (hcv : findVersion r.versions r.current_version = some cv)
    (hne : ix.vecs ≠ []) (hvne : vectors ≠ [])
    (hlen : metadata.length = vectors.length)
    (hdim : ∀ v ∈ vectors, v.length = ix.d)
    (hfar : ∀ v ∈ vectors, ¬ nnDist ix v < (1 : ℚ) / 100)
    (h1 : basename fp ≠ "_last_updated") (h2 : basename fp ≠ "_file_count")
    (h3 : basename fp ≠ "_vector_count") :
    (replace_file ⟨dk, ⟨some ix, some (MetaTable.list ms),
        some ((basename fp, RegEntry.record r) :: (k2, e2) :: rest), some hist⟩⟩ fp vectors metadata).2 =
      some { ok := true, count := some vectors.length, duplicates := some 0,
             file_name := some (basename fp) } ∧
    (replace_file ⟨dk, ⟨some ix, some (MetaTable.list ms),
        some ((basename fp, RegEntry.record r) :: (k2, e2) :: rest), some hist⟩⟩ fp vectors metadata).1.mem.index =
      some ⟨ix.d, ix.vecs ++ vectors⟩ ∧
    fileVersionNumbers (replace_file ⟨dk, ⟨some ix, some (MetaTable.list ms),
        some ((basename fp, RegEntry.record r) :: (k2, e2) :: rest), some hist⟩⟩ fp vectors metadata).1 (basename fp) =
      r.versions.map (·.version) ++ [maxVersion r.versions + 1] ∧
    fileCurrentVersion (replace_file ⟨dk, ⟨some ix, some (MetaTable.list ms),
        some ((basename fp, RegEntry.record r) :: (k2, e2) :: rest), some hist⟩⟩ fp vectors metadata).1 (basename fp) =
      some (maxVersion r.versions + 1) := by
  have hvs : r.versions ≠ [] := findVersion_ne_nil hcv
  have hnt : ix.ntotal ≠ 0 := by
    simpa [FlatIndex.ntotal, List.length_eq_zero] using hne
  have hdup : ∀ v ∈ vectors, isDuplicate ix v = false := fun v hv =>
    isDuplicate_of_far (hfar v hv)
  have hex : collection_exists ⟨dk, ⟨some ix, some (MetaTable.list ms),
        some ((basename fp, RegEntry.record r) :: (k2, e2) :: rest), some hist⟩⟩ = true := by
    simp [collection_exists]
  rw [replace_file]
  simp only [hex, if_true, Bool.not_true, not_true, loadAll, loadOpt_some,
    Option.getD_some, regGet_cons, if_pos, ite_true, ite_false, hcv]
  by_cases hret : (retainedIds ix.ntotal cv.vector_ids).isEmpty = true
  · obtain ⟨dk', h', hdel⟩ := delete_vectors_list_retained_empty dk ix ms hist
      cv.vector_ids (basename fp) r k2 e2 rest hnt he2 hret
    rw [hdel]
    have hmap := filterRecord_version_numbers cv.vector_ids (basename fp) r
    have hvsf : (filterRecord cv.vector_ids (basename fp) r).1.versions ≠ [] := by
      intro hnil
      rw [hnil] at hmap
      simp only [List.map_nil] at hmap
      exact hvs (List.map_eq_nil_iff.mp hmap.symm)
    have hmm : maxVersion (filterRecord cv.vector_ids (basename fp) r).1.versions =
        maxVersion r.versions := by
      unfold maxVersion
      rw [hmap]
    obtain ⟨ha, hb, hc, hd⟩ := add_to_existing_record_spec dk' ix (.list ms) h'
      (filterRecord cv.vector_ids (basename fp) r).1 k2 e2 rest vectors metadata fp
      hne hvne hlen hdim hdup hvsf h1 h2 h3
    exact ⟨by rw [ha], by rw [hb], by rw [hc, hmap, hmm], by rw [hd, hmm]⟩
  · have hret' : (retainedIds ix.ntotal cv.vector_ids).isEmpty = false :=
      Bool.not_eq_true _ ▸ eq_false_of_ne_true hret
    rw [delete_vectors_list_crash dk ix ms
      ((basename fp, RegEntry.record r) :: (k2, e2) :: rest) hist cv.vector_ids
      hnt hret']
    obtain ⟨ha, hb, hc, hd⟩ := add_to_existing_record_spec dk ix (.list ms) hist
      r k2 e2 rest vectors metadata fp hne hvne hlen hdim hdup hvs h1 h2 h3
    exact ⟨by rw [ha], by rw [hb], by rw [hc], by rw [hd]⟩

/-- Witness for C9: the canonical scenario — a record for `a.txt` holding
version 1 with ids 0-4 over a five-vector index, replaced by three fresh
vectors.  The call succeeds, the five old vectors stay in the index, and the
record ends with versions `[1, 2]` and `current_version = 2`. -/
theorem c9_witness :
    (replace_file ⟨{}, ⟨some ⟨4, vecs5⟩, some (MetaTable.list metas5),
        some (("a.txt", RegEntry.record
            ⟨"a.txt", "docs/a.txt", "ts", 5, "ts", [⟨1, 5, [0, 1, 2, 3, 4], "ts"⟩], 1⟩)
          :: ("_last_updated", RegEntry.strVal "ts") :: []), some []⟩⟩
        "docs/a.txt" vecsNew metasNew).2 =
      some { ok := true, count := some 3, duplicates := some 0,
             file_name := some "a.txt" } ∧
    (replace_file ⟨{}, ⟨some ⟨4, vecs5⟩, some (MetaTable.list metas5),
        some (("a.txt", RegEntry.record
            ⟨"a.txt", "docs/a.txt", "ts", 5, "ts", [⟨1, 5, [0, 1, 2, 3, 4], "ts"⟩], 1⟩)
          :: ("_last_updated", RegEntry.strVal "ts") :: []), some []⟩⟩
        "docs/a.txt" vecsNew metasNew).1.mem.index = some ⟨4, vecs5 ++ vecsNew⟩ ∧
    fileVersionNumbers
        (replace_file ⟨{}, ⟨some ⟨4, vecs5⟩, some (MetaTable.list metas5),
          some (("a.txt", RegEntry.record
              ⟨"a.txt", "docs/a.txt", "ts", 5, "ts", [⟨1, 5, [0, 1, 2, 3, 4], "ts"⟩], 1⟩)
            :: ("_last_updated", RegEntry.strVal "ts") :: []), some []⟩⟩
          "docs/a.txt" vecsNew metasNew).1 "a.txt" = [1, 2] ∧
    fileCurrentVersion
        (replace_file ⟨{}, ⟨some ⟨4, vecs5⟩, some (MetaTable.list metas5),
          some (("a.txt", RegEntry.record
              ⟨"a.txt", "docs/a.txt", "ts", 5, "ts", [⟨1, 5, [0, 1, 2, 3, 4], "ts"⟩], 1⟩)
            :: ("_last_updated", RegEntry.strVal "ts") :: []), some []⟩⟩
          "docs/a.txt" vecsNew metasNew).1 "a.txt" = some 2 := by
  obtain ⟨ha, hb, hc, hd⟩ := c9_replaceFile_bumps_version_amended
    {} ⟨4, vecs5⟩ metas5 []
    ⟨"a.txt", "docs/a.txt", "ts", 5, "ts", [⟨1, 5, [0, 1, 2, 3, 4], "ts"⟩], 1⟩
    "_last_updated" (RegEntry.strVal "ts") []
    ⟨1, 5, [0, 1, 2, 3, 4], "ts"⟩ vecsNew metasNew "docs/a.txt"
    (by decide) (by decide) (by decide) (by decide) (by decide) (by decide)
    (by decide) (by decide) (by decide) (by decide)
  refine ⟨?_, ?_, ?_, ?_⟩
  · rw [show basename "docs/a.txt" = "a.txt" from by decide] at ha
    rw [ha]
    try decide
  · rw [show basename "docs/a.txt" = "a.txt" from by decide] at hb
    rw [hb]
    try decide
  · rw [show basename "docs/a.txt" = "a.txt" from by decide] at hc
    rw [hc]
    try decide
  · rw [show basename "docs/a.txt" = "a.txt" from by decide] at hd
    rw [hd]
    try decide
